import Mathlib

/-!
# hash-experiments: open-addressing table and hybrid "tiny" storage

Shallow embedding of `src/main.cpp`:

* `Entry`, `EntryState` : the tri-state slot;
* `OpenAddressingTable` : fixed capacity `N`, linear probing, tombstones;
* `TinyStorage` : a direct-mapped fast array in front of an overflow
  `OpenAddressingTable`.

Conventions.

* `TYPE` is `int64_t`; keys are modelled as `Int`.
* `size_t` is 64 bits wide; every `size_t` sum is reduced modulo `2 ^ 64`.
* `int` is 32 bits wide; the shift `1 << target_bits` of the constructor is
  taken on 32 bits and then converted to `size_t`.
* `std::hash<T>` belongs to the standard library, not to the repository; it
  is a parameter `hasher : Key → Nat` whose value is read modulo `2 ^ 64`.
  `std_hash` is the identity cast used by libstdc++ and libc++.
* A C++ `throw std::runtime_error(msg)` leaves the object alive, so every
  operation returns the pair (result or error, state after the call).
* A `for (size_t i = 0; i < B; i++)` loop is a function of the number of
  iterations still to run and of the current `i`; it is started with `B`
  and `0`.
-/

namespace HashExperiments

/-- The key type `TYPE` (`int64_t`). -/
abbrev Key := Int

/-- Number of values of `size_t`. -/
def SIZE_T_MOD : Nat := 2 ^ 64

/-- The `enum class EntryState`. -/
inductive EntryState where
  | EMPTY
  | OCCUPIED
  | DELETED
deriving DecidableEq, Repr

/-- The `class Entry<T>`: a key and a state tag. -/
structure Entry where
  key : Key
  state : EntryState
deriving DecidableEq, Repr

/-- The default constructor `Entry() : key(0), state(EMPTY)`. -/
def Entry.default : Entry := { key := 0, state := EntryState.EMPTY }

/-- The three `std::runtime_error` messages thrown by the containers. -/
inductive Error where
  | TableFull
  | DuplicateKey
  | NotFound
deriving DecidableEq, Repr

/-- The `what()` text of each error. -/
def Error.what : Error → String
  | Error.TableFull => "table is full"
  | Error.DuplicateKey => "key already exists"
  | Error.NotFound => "key not found"

/-- The identity cast `static_cast<size_t>(key)` that libstdc++ and libc++ use
for `std::hash<int64_t>`. -/
def std_hash (key : Key) : Nat := (key % 2 ^ 64).toNat

/-- The `class OpenAddressingTable<T, N>`; the capacity `N` is a template
argument and is passed to every operation. -/
structure OpenAddressingTable where
  occupied_count : Nat
  entries : List Entry
deriving DecidableEq, Repr

namespace OpenAddressingTable

/-- The probe `hash_function(key, count) = (hasher(key) + count) % N`, the sum
taken in `size_t`. -/
def hash_function (hasher : Key → Nat) (N : Nat) (key : Key) (count : Nat) : Nat :=
  (hasher key + count) % SIZE_T_MOD % N

/-- The constructor: `occupied_count(0)` and `new Entry<T>[N]`. -/
def new (N : Nat) : OpenAddressingTable :=
  { occupied_count := 0, entries := List.replicate N Entry.default }

/-- The read `entries[hash]`. -/
def slot (t : OpenAddressingTable) (hash : Nat) : Entry :=
  t.entries.getD hash Entry.default

/-- The function `remaining_size()`, `N - occupied_count` in `size_t`. -/
def remaining_size (N : Nat) (t : OpenAddressingTable) : Nat :=
  (N + SIZE_T_MOD - t.occupied_count % SIZE_T_MOD) % SIZE_T_MOD

/-- The loop of `get`. -/
def get_loop (hasher : Key → Nat) (N : Nat) (t : OpenAddressingTable) (key : Key) :
    Nat → Nat → Except Error Key
  | 0, _ => Except.error Error.NotFound
  | todo + 1, i =>
    let hash := hash_function hasher N key i
    if (t.slot hash).state = EntryState.EMPTY ∨ (t.slot hash).state = EntryState.DELETED then
      Except.error Error.NotFound
    else if (t.slot hash).state = EntryState.OCCUPIED ∧ (t.slot hash).key = key then
      Except.ok (t.slot hash).key
    else get_loop hasher N t key todo (i + 1)

/-- The method `get`: it writes nothing. -/
def get (hasher : Key → Nat) (N : Nat) (t : OpenAddressingTable) (key : Key) :
    Except Error Key × OpenAddressingTable :=
  (get_loop hasher N t key N 0, t)

/-- The loop of `insert`. -/
def insert_loop (hasher : Key → Nat) (N : Nat) (t : OpenAddressingTable) (key : Key) :
    Nat → Nat → Except Error Unit × OpenAddressingTable
  | 0, _ => (Except.error Error.TableFull, t)
  | todo + 1, i =>
    let hash := hash_function hasher N key i
    if (t.slot hash).state = EntryState.OCCUPIED ∧ (t.slot hash).key = key then
      (Except.error Error.DuplicateKey, t)
    else if (t.slot hash).state = EntryState.EMPTY ∨ (t.slot hash).state = EntryState.DELETED then
      (Except.ok (),
        { occupied_count := (t.occupied_count + 1) % SIZE_T_MOD,
          entries := t.entries.set hash (Entry.mk key EntryState.OCCUPIED) })
    else insert_loop hasher N t key todo (i + 1)

/-- The method `insert`. -/
def insert (hasher : Key → Nat) (N : Nat) (t : OpenAddressingTable) (key : Key) :
    Except Error Unit × OpenAddressingTable :=
  if t.occupied_count = N then (Except.error Error.TableFull, t)
  else insert_loop hasher N t key N 0

/-- The loop of `remove`. -/
def remove_loop (hasher : Key → Nat) (N : Nat) (t : OpenAddressingTable) (key : Key) :
    Nat → Nat → Except Error Unit × OpenAddressingTable
  | 0, _ => (Except.error Error.NotFound, t)
  | todo + 1, i =>
    let hash := hash_function hasher N key i
    if (t.slot hash).state = EntryState.EMPTY then
      (Except.error Error.NotFound, t)
    else if (t.slot hash).state = EntryState.OCCUPIED ∧ (t.slot hash).key = key then
      (Except.ok (),
        { occupied_count := (t.occupied_count + SIZE_T_MOD - 1) % SIZE_T_MOD,
          entries := t.entries.set hash (Entry.mk (t.slot hash).key EntryState.DELETED) })
    else remove_loop hasher N t key todo (i + 1)

/-- The method `remove`. -/
def remove (hasher : Key → Nat) (N : Nat) (t : OpenAddressingTable) (key : Key) :
    Except Error Unit × OpenAddressingTable :=
  remove_loop hasher N t key N 0

/-- Number of slots whose state is `OCCUPIED`. -/
def occupied_slots (t : OpenAddressingTable) : Nat :=
  t.entries.countP (fun e => decide (e.state = EntryState.OCCUPIED))

end OpenAddressingTable

/-- A call on a container. -/
inductive Op where
  | insert (key : Key)
  | get (key : Key)
  | remove (key : Key)
deriving DecidableEq, Repr

namespace OpenAddressingTable

/-- The state after one call, whether it returned or threw. -/
def step (hasher : Key → Nat) (N : Nat) (t : OpenAddressingTable) : Op → OpenAddressingTable
  | Op.insert key => (insert hasher N t key).2
  | Op.get key => (get hasher N t key).2
  | Op.remove key => (remove hasher N t key).2

/-- The state after a sequence of calls. -/
def run (hasher : Key → Nat) (N : Nat) (t : OpenAddressingTable) (ops : List Op) :
    OpenAddressingTable :=
  ops.foldl (step hasher N) t

/-- The state after a sequence of `insert` calls. -/
def insert_all (hasher : Key → Nat) (N : Nat) (t : OpenAddressingTable) (keys : List Key) :
    OpenAddressingTable :=
  keys.foldl (fun s key => (insert hasher N s key).2) t

end OpenAddressingTable

/-- The constant `SUB_SIZE`. -/
def SUB_SIZE : Nat := 2

/-- The `class TinyStorage<T, N>`. -/
structure TinyStorage where
  fast_table : List Entry
  overflow_data : OpenAddressingTable
  fast_table_size : Nat
deriving DecidableEq, Repr

namespace TinyStorage

/-- The `int` shift `x << bits`, as the 32 bits of the result. The literal `1`
of `1 << target_bits` is an `int`; a count of 32 or more is undefined in C++
and is read modulo 32, as the x86 shift instruction does. -/
def shl_int (x bits : Nat) : Nat :=
  (x * 2 ^ (bits % 32)) % 2 ^ 32

/-- The conversion of an `int`, given by its 32 bits, to `size_t`: a negative
value is sign-extended. -/
def int_to_size_t (bits32 : Nat) : Nat :=
  if bits32 < 2 ^ 31 then bits32 else bits32 + SIZE_T_MOD - 2 ^ 32

/-- The constructor: `target_bits = ceil(log2(N)) - 1`,
`fast_table_size = 1 << target_bits`. The value `ceil(log2(N))` of the
floating-point library is taken as the exact `Nat.clog 2 N`, which it is for
`2 ≤ N ≤ 2 ^ 31`; for `N = 1` the C++ code converts `-1.0` to `size_t`, which
is undefined. -/
def new (N : Nat) : TinyStorage :=
  let target_bits := Nat.clog 2 N - 1
  let fast_table_size := int_to_size_t (shl_int 1 target_bits)
  { fast_table := List.replicate fast_table_size Entry.default,
    overflow_data := OpenAddressingTable.new N,
    fast_table_size := fast_table_size }

/-- The bucket `hash_function(key) = hasher(key) % fast_table_size`. -/
def hash_function (hasher : Key → Nat) (s : TinyStorage) (key : Key) : Nat :=
  hasher key % SIZE_T_MOD % s.fast_table_size

/-- The read `fast_table[bucket_idx]`. -/
def fast (s : TinyStorage) (bucket_idx : Nat) : Entry :=
  s.fast_table.getD bucket_idx Entry.default

/-- The loop of `get` over `slot_idx`: the key found, if any. -/
def get_loop (s : TinyStorage) (key : Key) (bucket_idx : Nat) : Nat → Nat → Option Key
  | 0, _ => none
  | todo + 1, slot_idx =>
    if (s.fast bucket_idx).key = key then some (s.fast bucket_idx).key
    else get_loop s key bucket_idx todo (slot_idx + 1)

/-- The method `get`, with `W` iterations of the bucket loop. -/
def get_width (W : Nat) (hasher : Key → Nat) (N : Nat) (s : TinyStorage) (key : Key) :
    Except Error Key × TinyStorage :=
  let bucket_idx := hash_function hasher s key
  match get_loop s key bucket_idx W 0 with
  | some found => (Except.ok found, s)
  | none =>
    ((s.overflow_data.get hasher N key).1,
      { s with overflow_data := (s.overflow_data.get hasher N key).2 })

/-- The method `get`. -/
def get (hasher : Key → Nat) (N : Nat) (s : TinyStorage) (key : Key) :
    Except Error Key × TinyStorage :=
  get_width SUB_SIZE hasher N s key

/-- The loop of `insert` over `slot_idx`: the state after the write, if a
write happened. -/
def insert_loop (s : TinyStorage) (key : Key) (bucket_idx : Nat) : Nat → Nat → Option TinyStorage
  | 0, _ => none
  | todo + 1, slot_idx =>
    if (s.fast bucket_idx).state = EntryState.OCCUPIED then
      insert_loop s key bucket_idx todo (slot_idx + 1)
    else
      some { s with fast_table :=
        (s.fast_table.set bucket_idx (Entry.mk key EntryState.OCCUPIED)) }

/-- The method `insert`, with `W` iterations of the bucket loop. -/
def insert_width (W : Nat) (hasher : Key → Nat) (N : Nat) (s : TinyStorage) (key : Key) :
    Except Error Unit × TinyStorage :=
  let bucket_idx := hash_function hasher s key
  match insert_loop s key bucket_idx W 0 with
  | some s' => (Except.ok (), s')
  | none =>
    ((s.overflow_data.insert hasher N key).1,
      { s with overflow_data := (s.overflow_data.insert hasher N key).2 })

/-- The method `insert`. -/
def insert (hasher : Key → Nat) (N : Nat) (s : TinyStorage) (key : Key) :
    Except Error Unit × TinyStorage :=
  insert_width SUB_SIZE hasher N s key

/-- The loop of `remove` over `slot_idx`: the state after the write, if a
write happened. -/
def remove_loop (s : TinyStorage) (key : Key) (bucket_idx : Nat) : Nat → Nat → Option TinyStorage
  | 0, _ => none
  | todo + 1, slot_idx =>
    if (s.fast bucket_idx).state = EntryState.OCCUPIED ∧ (s.fast bucket_idx).key = key then
      some { s with fast_table :=
        (s.fast_table.set bucket_idx (Entry.mk (s.fast bucket_idx).key EntryState.DELETED)) }
    else remove_loop s key bucket_idx todo (slot_idx + 1)

/-- The method `remove`, with `W` iterations of the bucket loop. -/
def remove_width (W : Nat) (hasher : Key → Nat) (N : Nat) (s : TinyStorage) (key : Key) :
    Except Error Unit × TinyStorage :=
  let bucket_idx := hash_function hasher s key
  match remove_loop s key bucket_idx W 0 with
  | some s' => (Except.ok (), s')
  | none =>
    ((s.overflow_data.remove hasher N key).1,
      { s with overflow_data := (s.overflow_data.remove hasher N key).2 })

/-- The method `remove`. -/
def remove (hasher : Key → Nat) (N : Nat) (s : TinyStorage) (key : Key) :
    Except Error Unit × TinyStorage :=
  remove_width SUB_SIZE hasher N s key

/-- The state after one call, whether it returned or threw. -/
def step (hasher : Key → Nat) (N : Nat) (s : TinyStorage) : Op → TinyStorage
  | Op.insert key => (insert hasher N s key).2
  | Op.get key => (get hasher N s key).2
  | Op.remove key => (remove hasher N s key).2

/-- The state after a sequence of calls. -/
def run (hasher : Key → Nat) (N : Nat) (s : TinyStorage) (ops : List Op) : TinyStorage :=
  ops.foldl (step hasher N) s

/-- The state after a sequence of `insert` calls. -/
def insert_all (hasher : Key → Nat) (N : Nat) (s : TinyStorage) (keys : List Key) :
    TinyStorage :=
  keys.foldl (fun s key => (insert hasher N s key).2) s

end TinyStorage

/-! ## Predicates on states -/

deriving instance DecidableEq for Except

namespace OpenAddressingTable

/-- Probes `i ≤ l < j` of `key` all meet an `OCCUPIED` slot that holds another
key: the scans of `get` and `insert` step over them. -/
def Passes (hasher : Key → Nat) (N : Nat) (t : OpenAddressingTable) (key : Key)
    (i j : Nat) : Prop :=
  ∀ l, i ≤ l → l < j →
    (t.slot (hash_function hasher N key l)).state = EntryState.OCCUPIED ∧
    (t.slot (hash_function hasher N key l)).key ≠ key

/-- The scan for `key` from probe `0` reaches, at probe `j`, an `OCCUPIED` slot
that holds `key`. -/
def FoundAt (hasher : Key → Nat) (N : Nat) (t : OpenAddressingTable) (key : Key)
    (j : Nat) : Prop :=
  j < N ∧ Passes hasher N t key 0 j ∧
    (t.slot (hash_function hasher N key j)).state = EntryState.OCCUPIED ∧
    (t.slot (hash_function hasher N key j)).key = key

/-- Probes `i ≤ l < j` of `key` all meet a slot that is not `EMPTY` and is not
an `OCCUPIED` slot holding `key`: the scan of `remove` steps over them. -/
def Skips (hasher : Key → Nat) (N : Nat) (t : OpenAddressingTable) (key : Key)
    (i j : Nat) : Prop :=
  ∀ l, i ≤ l → l < j →
    (t.slot (hash_function hasher N key l)).state ≠ EntryState.EMPTY ∧
    ¬ ((t.slot (hash_function hasher N key l)).state = EntryState.OCCUPIED ∧
        (t.slot (hash_function hasher N key l)).key = key)

/-- The `size_t` sum of the probe of `key` does not disturb the residue modulo
`N`: `N` divides `2 ^ 64` (every power-of-two capacity, such as `TABLE_SIZE`
and `TABLE_SIZE * 2`), or `hasher(key) + i` stays below `2 ^ 64` for `i < N`. -/
def NoWrap (hasher : Key → Nat) (N : Nat) (key : Key) : Prop :=
  SIZE_T_MOD % N = 0 ∨ hasher key % SIZE_T_MOD + N ≤ SIZE_T_MOD

/-- Every `OCCUPIED` slot holds a key whose scan reaches that very slot. -/
def AllFound (hasher : Key → Nat) (N : Nat) (t : OpenAddressingTable) : Prop :=
  ∀ h, h < N → (t.slot h).state = EntryState.OCCUPIED →
    ∃ j, FoundAt hasher N t (t.slot h).key j ∧ hash_function hasher N (t.slot h).key j = h

/-- Every `OCCUPIED` slot lies on the probe sequence of its key, within `N`
probes and with no `EMPTY` slot before it: the scan of `remove` gets there. -/
def NoEmptyBefore (hasher : Key → Nat) (N : Nat) (t : OpenAddressingTable) : Prop :=
  ∀ h, h < N → (t.slot h).state = EntryState.OCCUPIED →
    ∃ j, j < N ∧ hash_function hasher N (t.slot h).key j = h ∧
      ∀ l, l < j →
        (t.slot (hash_function hasher N (t.slot h).key l)).state ≠ EntryState.EMPTY

end OpenAddressingTable

/-- The state changes of one slot that an `insert` call may make: none,
`EMPTY → OCCUPIED` or `DELETED → OCCUPIED`. -/
def InsertTransition (before after : EntryState) : Prop :=
  after = before ∨
  (before = EntryState.EMPTY ∧ after = EntryState.OCCUPIED) ∨
  (before = EntryState.DELETED ∧ after = EntryState.OCCUPIED)

/-- The state changes of one slot that a `remove` call may make: none or
`OCCUPIED → DELETED`. -/
def RemoveTransition (before after : EntryState) : Prop :=
  after = before ∨ (before = EntryState.OCCUPIED ∧ after = EntryState.DELETED)

namespace TinyStorage

/-- The width-1 `get` of the direct-mapped table: it inspects the single slot
`fast_table[hash(key) mod F]` once and otherwise delegates to the overflow
table. -/
def get_direct (hasher : Key → Nat) (N : Nat) (s : TinyStorage) (key : Key) :
    Except Error Key × TinyStorage :=
  if (s.fast (hash_function hasher s key)).key = key then
    (Except.ok (s.fast (hash_function hasher s key)).key, s)
  else
    ((s.overflow_data.get hasher N key).1,
      { s with overflow_data := (s.overflow_data.get hasher N key).2 })

/-- The width-1 `insert` of the direct-mapped table: it inspects the single
slot `fast_table[hash(key) mod F]` once and otherwise delegates to the overflow
table. -/
def insert_direct (hasher : Key → Nat) (N : Nat) (s : TinyStorage) (key : Key) :
    Except Error Unit × TinyStorage :=
  if (s.fast (hash_function hasher s key)).state = EntryState.OCCUPIED then
    ((s.overflow_data.insert hasher N key).1,
      { s with overflow_data := (s.overflow_data.insert hasher N key).2 })
  else
    (Except.ok (),
      { s with fast_table :=
        (s.fast_table.set (hash_function hasher s key) (Entry.mk key EntryState.OCCUPIED)) })

/-- The width-1 `remove` of the direct-mapped table: it inspects the single
slot `fast_table[hash(key) mod F]` once and otherwise delegates to the overflow
table. -/
def remove_direct (hasher : Key → Nat) (N : Nat) (s : TinyStorage) (key : Key) :
    Except Error Unit × TinyStorage :=
  if (s.fast (hash_function hasher s key)).state = EntryState.OCCUPIED ∧
      (s.fast (hash_function hasher s key)).key = key then
    (Except.ok (),
      { s with fast_table :=
        (s.fast_table.set (hash_function hasher s key)
          (Entry.mk (s.fast (hash_function hasher s key)).key EntryState.DELETED)) })
  else
    ((s.overflow_data.remove hasher N key).1,
      { s with overflow_data := (s.overflow_data.remove hasher N key).2 })

/-- Every `OCCUPIED` slot of the fast array is the home bucket of its key. -/
def Homed (hasher : Key → Nat) (s : TinyStorage) : Prop :=
  ∀ b, b < s.fast_table_size → (s.fast b).state = EntryState.OCCUPIED →
    hash_function hasher s (s.fast b).key = b

/-- The shape of a constructed storage: the fast array has `fast_table_size`
slots, at least one, and the overflow table has `N` slots. -/
def WellFormed (N : Nat) (s : TinyStorage) : Prop :=
  s.fast_table.length = s.fast_table_size ∧ 0 < s.fast_table_size ∧
    s.overflow_data.entries.length = N

/-- The key is held by its `OCCUPIED` home bucket of the fast array, or the
scan of the overflow table reaches it. -/
def Stored (hasher : Key → Nat) (N : Nat) (s : TinyStorage) (key : Key) : Prop :=
  ((s.fast (hash_function hasher s key)).state = EntryState.OCCUPIED ∧
      (s.fast (hash_function hasher s key)).key = key) ∨
    ∃ j, OpenAddressingTable.FoundAt hasher N s.overflow_data key j

end TinyStorage

end HashExperiments

/-! ## Scans of the open-addressing table -/

namespace HashExperiments

namespace OpenAddressingTable

theorem hash_function_lt (hasher : Key → Nat) {N : Nat} (hN : 0 < N) (key : Key) (i : Nat) :
    hash_function hasher N key i < N :=
  Nat.mod_lt _ hN

theorem slot_set_self (l : List Entry) (c h : Nat) (e : Entry) (hh : h < l.length) :
    slot { occupied_count := c, entries := l.set h e } h = e := by
  simp [slot, List.getElem?_set, hh]

theorem slot_set_other (t : OpenAddressingTable) (c h h' : Nat) (e : Entry) (hne : h' ≠ h) :
    slot { occupied_count := c, entries := t.entries.set h e } h' = t.slot h' := by
  simp [slot, List.getElem?_set, Ne.symm hne]

theorem state_cases (s : EntryState) :
    s = EntryState.EMPTY ∨ s = EntryState.OCCUPIED ∨ s = EntryState.DELETED := by
  cases s <;> simp

/-- Every outcome of the `insert` scan, with the probe at which it ended. -/
theorem insert_loop_spec (hasher : Key → Nat) (N : Nat) (t : OpenAddressingTable) (key : Key)
    (todo i : Nat) :
    (insert_loop hasher N t key todo i = (Except.error Error.TableFull, t) ∧
        Passes hasher N t key i (i + todo)) ∨
    (insert_loop hasher N t key todo i = (Except.error Error.DuplicateKey, t) ∧
        ∃ j, i ≤ j ∧ j < i + todo ∧ Passes hasher N t key i j ∧
          (t.slot (hash_function hasher N key j)).state = EntryState.OCCUPIED ∧
          (t.slot (hash_function hasher N key j)).key = key) ∨
    (∃ j, i ≤ j ∧ j < i + todo ∧ Passes hasher N t key i j ∧
        (t.slot (hash_function hasher N key j)).state ≠ EntryState.OCCUPIED ∧
        insert_loop hasher N t key todo i =
          (Except.ok (),
            { occupied_count := (t.occupied_count + 1) % SIZE_T_MOD,
              entries := t.entries.set (hash_function hasher N key j)
                (Entry.mk key EntryState.OCCUPIED) })) := by
  induction todo generalizing i with
  | zero =>
    left
    refine ⟨rfl, ?_⟩
    intro l h1 h2
    omega
  | succ n ih =>
    unfold insert_loop
    by_cases hdup : (t.slot (hash_function hasher N key i)).state = EntryState.OCCUPIED ∧
        (t.slot (hash_function hasher N key i)).key = key
    · right; left
      refine ⟨by simp [hdup], i, le_refl _, by omega, ?_, hdup.1, hdup.2⟩
      intro l h1 h2
      omega
    · by_cases hfree : (t.slot (hash_function hasher N key i)).state = EntryState.EMPTY ∨
          (t.slot (hash_function hasher N key i)).state = EntryState.DELETED
      · right; right
        refine ⟨i, le_refl _, by omega, ?_, ?_, ?_⟩
        · intro l h1 h2
          omega
        · rcases hfree with h | h <;> simp [h]
        · simp only [hdup, hfree]
          simp
      · have hocc : (t.slot (hash_function hasher N key i)).state = EntryState.OCCUPIED := by
          rcases state_cases (t.slot (hash_function hasher N key i)).state with h | h | h
          · exact absurd (Or.inl h) hfree
          · exact h
          · exact absurd (Or.inr h) hfree
        have hne : (t.slot (hash_function hasher N key i)).key ≠ key := fun h => hdup ⟨hocc, h⟩
        have hstep : Passes hasher N t key i (i + 1) := by
          intro l h1 h2
          have : l = i := by omega
          subst this
          exact ⟨hocc, hne⟩
        have hglue : ∀ j, Passes hasher N t key (i + 1) j → Passes hasher N t key i j := by
          intro j hp l h1 h2
          by_cases hl : l = i
          · subst hl; exact ⟨hocc, hne⟩
          · exact hp l (by omega) h2
        simp only [hdup, hfree, if_false]
        rcases ih (i + 1) with ⟨h1, h2⟩ | ⟨h1, j, hj1, hj2, hp, hs⟩ | ⟨j, hj1, hj2, hp, hs, h1⟩
        · left
          refine ⟨h1, ?_⟩
          have := hglue _ h2
          rw [show i + (n + 1) = i + 1 + n by omega]
          exact this
        · right; left
          exact ⟨h1, j, by omega, by omega, hglue _ hp, hs⟩
        · right; right
          exact ⟨j, by omega, by omega, hglue _ hp, hs, h1⟩

/-- Every outcome of the `remove` scan, with the probe at which it ended. -/
theorem remove_loop_spec (hasher : Key → Nat) (N : Nat) (t : OpenAddressingTable) (key : Key)
    (todo i : Nat) :
    (remove_loop hasher N t key todo i = (Except.error Error.NotFound, t) ∧
        Skips hasher N t key i (i + todo)) ∨
    (remove_loop hasher N t key todo i = (Except.error Error.NotFound, t) ∧
        ∃ j, i ≤ j ∧ j < i + todo ∧ Skips hasher N t key i j ∧
          (t.slot (hash_function hasher N key j)).state = EntryState.EMPTY) ∨
    (∃ j, i ≤ j ∧ j < i + todo ∧ Skips hasher N t key i j ∧
        (t.slot (hash_function hasher N key j)).state = EntryState.OCCUPIED ∧
        (t.slot (hash_function hasher N key j)).key = key ∧
        remove_loop hasher N t key todo i =
          (Except.ok (),
            { occupied_count := (t.occupied_count + SIZE_T_MOD - 1) % SIZE_T_MOD,
              entries := t.entries.set (hash_function hasher N key j)
                (Entry.mk (t.slot (hash_function hasher N key j)).key EntryState.DELETED) })) := by
  induction todo generalizing i with
  | zero =>
    left
    refine ⟨rfl, ?_⟩
    intro l h1 h2
    omega
  | succ n ih =>
    unfold remove_loop
    by_cases hempty : (t.slot (hash_function hasher N key i)).state = EntryState.EMPTY
    · right; left
      refine ⟨by simp [hempty], i, le_refl _, by omega, ?_, hempty⟩
      intro l h1 h2
      omega
    · by_cases hhit : (t.slot (hash_function hasher N key i)).state = EntryState.OCCUPIED ∧
          (t.slot (hash_function hasher N key i)).key = key
      · right; right
        refine ⟨i, le_refl _, by omega, ?_, hhit.1, hhit.2, ?_⟩
        · intro l h1 h2
          omega
        · simp only [hempty, hhit]
          simp
      · have hglue : ∀ j, Skips hasher N t key (i + 1) j → Skips hasher N t key i j := by
          intro j hp l h1 h2
          by_cases hl : l = i
          · subst hl; exact ⟨hempty, hhit⟩
          · exact hp l (by omega) h2
        simp only [hempty, hhit, if_false]
        rcases ih (i + 1) with ⟨h1, h2⟩ | ⟨h1, j, hj1, hj2, hp, hs⟩ | ⟨j, hj1, hj2, hp, hs, h1⟩
        · left
          refine ⟨h1, ?_⟩
          have := hglue _ h2
          rw [show i + (n + 1) = i + 1 + n by omega]
          exact this
        · right; left
          exact ⟨h1, j, by omega, by omega, hglue _ hp, hs⟩
        · right; right
          exact ⟨j, by omega, by omega, hglue _ hp, hs, h1⟩

/-- The scan of `get` returns the key when the probes before a slot holding it
are all occupied by other keys. -/
theorem get_loop_found (hasher : Key → Nat) (N : Nat) (t : OpenAddressingTable) (key : Key)
    (todo i j : Nat) (hij : i ≤ j) (hj : j < i + todo) (hp : Passes hasher N t key i j)
    (hs : (t.slot (hash_function hasher N key j)).state = EntryState.OCCUPIED)
    (hk : (t.slot (hash_function hasher N key j)).key = key) :
    get_loop hasher N t key todo i = Except.ok key := by
  induction todo generalizing i with
  | zero => omega
  | succ n ih =>
    unfold get_loop
    by_cases hi : i = j
    · subst hi
      simp [hs, hk]
    · obtain ⟨h1, h2⟩ := hp i (le_refl _) (by omega)
      simp only [h1, h2]
      simp only [reduceCtorEq, or_self, if_false, and_false]
      exact ih (i + 1) (by omega) (by omega) (fun l a b => hp l (by omega) b)

/-- The scan of `get` fails when it meets a slot that is not `OCCUPIED` before
any `OCCUPIED` slot holding the key. -/
theorem get_loop_notfound (hasher : Key → Nat) (N : Nat) (t : OpenAddressingTable) (key : Key)
    (todo i j : Nat) (hij : i ≤ j) (hj : j < i + todo)
    (hp : ∀ l, i ≤ l → l < j →
      ¬ ((t.slot (hash_function hasher N key l)).state = EntryState.OCCUPIED ∧
        (t.slot (hash_function hasher N key l)).key = key))
    (hs : (t.slot (hash_function hasher N key j)).state ≠ EntryState.OCCUPIED) :
    get_loop hasher N t key todo i = Except.error Error.NotFound := by
  induction todo generalizing i with
  | zero => rfl
  | succ n ih =>
    unfold get_loop
    by_cases hfree : (t.slot (hash_function hasher N key i)).state = EntryState.EMPTY ∨
        (t.slot (hash_function hasher N key i)).state = EntryState.DELETED
    · simp only [hfree, if_true]
    · have hocc : (t.slot (hash_function hasher N key i)).state = EntryState.OCCUPIED := by
        rcases state_cases (t.slot (hash_function hasher N key i)).state with h | h | h
        · exact absurd (Or.inl h) hfree
        · exact h
        · exact absurd (Or.inr h) hfree
      have hi : i ≠ j := by
        intro h
        subst h
        exact hs hocc
      have hnk := hp i (le_refl _) (by omega)
      simp only [hfree, hnk, if_false]
      exact ih (i + 1) (by omega) (by omega) (fun l a b => hp l (by omega) b)

/-- Every outcome of the `get` scan. -/
theorem get_loop_spec (hasher : Key → Nat) (N : Nat) (t : OpenAddressingTable) (key : Key)
    (todo i : Nat) :
    get_loop hasher N t key todo i = Except.error Error.NotFound ∨
    (get_loop hasher N t key todo i = Except.ok key ∧
      ∃ j, i ≤ j ∧ j < i + todo ∧ Passes hasher N t key i j ∧
        (t.slot (hash_function hasher N key j)).state = EntryState.OCCUPIED ∧
        (t.slot (hash_function hasher N key j)).key = key) := by
  induction todo generalizing i with
  | zero => left; rfl
  | succ n ih =>
    unfold get_loop
    by_cases hfree : (t.slot (hash_function hasher N key i)).state = EntryState.EMPTY ∨
        (t.slot (hash_function hasher N key i)).state = EntryState.DELETED
    · left
      simp only [hfree, if_true]
    · have hocc : (t.slot (hash_function hasher N key i)).state = EntryState.OCCUPIED := by
        rcases state_cases (t.slot (hash_function hasher N key i)).state with h | h | h
        · exact absurd (Or.inl h) hfree
        · exact h
        · exact absurd (Or.inr h) hfree
      by_cases hk : (t.slot (hash_function hasher N key i)).key = key
      · right
        refine ⟨by simp [hocc, hk], i, le_refl _, by omega, ?_, hocc, hk⟩
        intro l h1 h2
        omega
      · simp only [hfree, hk, and_false, if_false]
        rcases ih (i + 1) with h | ⟨h, j, hj1, hj2, hp, hs⟩
        · left; exact h
        · right
          refine ⟨h, j, by omega, by omega, ?_, hs⟩
          intro l h1 h2
          by_cases hl : l = i
          · subst hl; exact ⟨hocc, hk⟩
          · exact hp l (by omega) h2

theorem slot_eq_getElem (t : OpenAddressingTable) (h : Nat) (hh : h < t.entries.length) :
    t.slot h = t.entries[h] := by
  simp [slot, hh]

theorem insert_of_full (hasher : Key → Nat) (N : Nat) (t : OpenAddressingTable) (key : Key)
    (h : t.occupied_count = N) : insert hasher N t key = (Except.error Error.TableFull, t) := by
  simp [insert, h]

theorem insert_of_not_full (hasher : Key → Nat) (N : Nat) (t : OpenAddressingTable) (key : Key)
    (h : t.occupied_count ≠ N) : insert hasher N t key = insert_loop hasher N t key N 0 := by
  simp [insert, h]

/-- A successful `insert` wrote the key into the first slot of its probe
sequence that was not `OCCUPIED`, after stepping over slots held by other keys. -/
theorem insert_ok_effect (hasher : Key → Nat) (N : Nat) (t : OpenAddressingTable) (key : Key)
    (h : (insert hasher N t key).1 = Except.ok ()) :
    t.occupied_count ≠ N ∧ ∃ j, j < N ∧ Passes hasher N t key 0 j ∧
      (t.slot (hash_function hasher N key j)).state ≠ EntryState.OCCUPIED ∧
      insert hasher N t key =
        (Except.ok (),
          { occupied_count := (t.occupied_count + 1) % SIZE_T_MOD,
            entries := t.entries.set (hash_function hasher N key j)
              (Entry.mk key EntryState.OCCUPIED) }) := by
  by_cases hfull : t.occupied_count = N
  · rw [insert_of_full hasher N t key hfull] at h
    simp at h
  · refine ⟨hfull, ?_⟩
    rw [insert_of_not_full hasher N t key hfull] at h ⊢
    rcases insert_loop_spec hasher N t key N 0 with ⟨h1, _⟩ | ⟨h1, _⟩ | ⟨j, _, hj, hp, hs, h1⟩
    · rw [h1] at h; simp at h
    · rw [h1] at h; simp at h
    · exact ⟨j, by omega, hp, hs, h1⟩

/-- A failing `insert` leaves the table as it was. -/
theorem insert_error_state (hasher : Key → Nat) (N : Nat) (t : OpenAddressingTable) (key : Key)
    (e : Error) (h : (insert hasher N t key).1 = Except.error e) :
    (insert hasher N t key).2 = t := by
  by_cases hfull : t.occupied_count = N
  · rw [insert_of_full hasher N t key hfull]
  · rw [insert_of_not_full hasher N t key hfull] at h ⊢
    rcases insert_loop_spec hasher N t key N 0 with ⟨h1, _⟩ | ⟨h1, _⟩ | ⟨j, _, hj, hp, hs, h1⟩
    · rw [h1]
    · rw [h1]
    · rw [h1] at h; simp at h

theorem insert_result_cases (hasher : Key → Nat) (N : Nat) (t : OpenAddressingTable)
    (key : Key) :
    (insert hasher N t key).1 = Except.ok () ∨
      ∃ e, (insert hasher N t key).1 = Except.error e := by
  rcases hr : (insert hasher N t key).1 with e | u
  · right; exact ⟨e, rfl⟩
  · left; rfl

/-- A successful `remove` tombstoned the first `OCCUPIED` slot of the probe
sequence that holds the key, after stepping over slots that are not `EMPTY`. -/
theorem remove_ok_effect (hasher : Key → Nat) (N : Nat) (t : OpenAddressingTable) (key : Key)
    (h : (remove hasher N t key).1 = Except.ok ()) :
    ∃ j, j < N ∧ Skips hasher N t key 0 j ∧
      (t.slot (hash_function hasher N key j)).state = EntryState.OCCUPIED ∧
      (t.slot (hash_function hasher N key j)).key = key ∧
      remove hasher N t key =
        (Except.ok (),
          { occupied_count := (t.occupied_count + SIZE_T_MOD - 1) % SIZE_T_MOD,
            entries := t.entries.set (hash_function hasher N key j)
              (Entry.mk (t.slot (hash_function hasher N key j)).key EntryState.DELETED) }) := by
  unfold remove at h ⊢
  rcases remove_loop_spec hasher N t key N 0 with ⟨h1, _⟩ | ⟨h1, _⟩ | ⟨j, _, hj, hp, hs, hk, h1⟩
  · rw [h1] at h; simp at h
  · rw [h1] at h; simp at h
  · exact ⟨j, by omega, hp, hs, hk, h1⟩

/-- A failing `remove` leaves the table as it was. -/
theorem remove_error_state (hasher : Key → Nat) (N : Nat) (t : OpenAddressingTable) (key : Key)
    (e : Error) (h : (remove hasher N t key).1 = Except.error e) :
    (remove hasher N t key).2 = t := by
  unfold remove at h ⊢
  rcases remove_loop_spec hasher N t key N 0 with ⟨h1, _⟩ | ⟨h1, _⟩ | ⟨j, _, hj, hp, hs, hk, h1⟩
  · rw [h1]
  · rw [h1]
  · rw [h1] at h; simp at h

theorem remove_result_cases (hasher : Key → Nat) (N : Nat) (t : OpenAddressingTable)
    (key : Key) :
    (remove hasher N t key).1 = Except.ok () ∨
      ∃ e, (remove hasher N t key).1 = Except.error e := by
  rcases hr : (remove hasher N t key).1 with e | u
  · right; exact ⟨e, rfl⟩
  · left; rfl

theorem length_insert (hasher : Key → Nat) (N : Nat) (t : OpenAddressingTable) (key : Key) :
    (insert hasher N t key).2.entries.length = t.entries.length := by
  rcases insert_result_cases hasher N t key with h | ⟨e, h⟩
  · obtain ⟨_, j, _, _, _, h1⟩ := insert_ok_effect hasher N t key h
    rw [h1]
    simp
  · rw [insert_error_state hasher N t key e h]

theorem length_remove (hasher : Key → Nat) (N : Nat) (t : OpenAddressingTable) (key : Key) :
    (remove hasher N t key).2.entries.length = t.entries.length := by
  rcases remove_result_cases hasher N t key with h | ⟨e, h⟩
  · obtain ⟨j, _, _, _, _, h1⟩ := remove_ok_effect hasher N t key h
    rw [h1]
    simp
  · rw [remove_error_state hasher N t key e h]

theorem length_step (hasher : Key → Nat) (N : Nat) (t : OpenAddressingTable) (op : Op) :
    (step hasher N t op).entries.length = t.entries.length := by
  cases op with
  | insert key => exact length_insert hasher N t key
  | get key => rfl
  | remove key => exact length_remove hasher N t key

theorem run_append (hasher : Key → Nat) (N : Nat) (t : OpenAddressingTable)
    (ops : List Op) (op : Op) :
    run hasher N t (ops ++ [op]) = step hasher N (run hasher N t ops) op := by
  simp [run, List.foldl_append]

theorem length_run (hasher : Key → Nat) (N : Nat) (t : OpenAddressingTable) (ops : List Op) :
    (run hasher N t ops).entries.length = t.entries.length := by
  induction ops generalizing t with
  | nil => rfl
  | cons op rest ih =>
    show (run hasher N (step hasher N t op) rest).entries.length = _
    rw [ih, length_step]

theorem length_new_run (hasher : Key → Nat) (N : Nat) (ops : List Op) :
    (run hasher N (new N) ops).entries.length = N := by
  rw [length_run]
  simp [new]

/-- An `insert` call never touches a slot that is `OCCUPIED`. -/
theorem insert_keeps_occupied (hasher : Key → Nat) (N : Nat) (t : OpenAddressingTable)
    (key : Key) (h : Nat) (hocc : (t.slot h).state = EntryState.OCCUPIED) :
    (insert hasher N t key).2.slot h = t.slot h := by
  rcases insert_result_cases hasher N t key with hr | ⟨e, hr⟩
  · obtain ⟨_, j, _, _, hs, h1⟩ := insert_ok_effect hasher N t key hr
    rw [h1]
    apply slot_set_other
    intro heq
    rw [heq] at hocc
    exact hs hocc
  · rw [insert_error_state hasher N t key e hr]

/-- A reached key stays reached across a later `insert` call. -/
theorem foundAt_insert (hasher : Key → Nat) (N : Nat) (t : OpenAddressingTable)
    (key other : Key) (j : Nat) (h : FoundAt hasher N t key j) :
    FoundAt hasher N (insert hasher N t other).2 key j := by
  obtain ⟨hj, hp, hs, hk⟩ := h
  refine ⟨hj, ?_, ?_, ?_⟩
  · intro l h1 h2
    rw [insert_keeps_occupied hasher N t other _ (hp l h1 h2).1]
    exact hp l h1 h2
  · rw [insert_keeps_occupied hasher N t other _ hs]; exact hs
  · rw [insert_keeps_occupied hasher N t other _ hs]; exact hk

theorem foundAt_insert_all (hasher : Key → Nat) (N : Nat) (t : OpenAddressingTable)
    (key : Key) (later : List Key) (j : Nat) (h : FoundAt hasher N t key j) :
    FoundAt hasher N (insert_all hasher N t later) key j := by
  induction later generalizing t with
  | nil => exact h
  | cons other rest ih =>
    show FoundAt hasher N (insert_all hasher N (insert hasher N t other).2 rest) key j
    exact ih _ (foundAt_insert hasher N t key other j h)

/-- The key written by a successful `insert` is reached by the scan. -/
theorem insert_ok_foundAt (hasher : Key → Nat) (N : Nat) (t : OpenAddressingTable)
    (key : Key) (hlen : t.entries.length = N)
    (h : (insert hasher N t key).1 = Except.ok ()) :
    ∃ j, FoundAt hasher N (insert hasher N t key).2 key j := by
  obtain ⟨_, j, hj, hp, hs, h1⟩ := insert_ok_effect hasher N t key h
  have hlt : hash_function hasher N key j < t.entries.length := by
    rw [hlen]; exact hash_function_lt hasher (by omega) key j
  refine ⟨j, hj, ?_, ?_⟩
  · intro l hl1 hl2
    rw [h1]
    have hne : hash_function hasher N key l ≠ hash_function hasher N key j := by
      intro heq
      rw [← heq] at hs
      exact hs (hp l hl1 hl2).1
    show (slot _ _).state = _ ∧ (slot _ _).key ≠ _
    rw [slot_set_other t _ _ _ _ hne]
    exact hp l hl1 hl2
  · rw [h1]
    show (slot _ _).state = _ ∧ (slot _ _).key = _
    rw [slot_set_self _ _ _ _ hlt]
    exact ⟨rfl, rfl⟩

/-- A reached key is returned by `get`. -/
theorem foundAt_get (hasher : Key → Nat) (N : Nat) (t : OpenAddressingTable)
    (key : Key) (j : Nat) (h : FoundAt hasher N t key j) :
    get hasher N t key = (Except.ok key, t) := by
  obtain ⟨hj, hp, hs, hk⟩ := h
  unfold get
  rw [get_loop_found hasher N t key N 0 j (Nat.zero_le _) (by omega) hp hs hk]

/-- A reached key makes the scan of `insert` end in `DuplicateKey`. -/
theorem insert_loop_of_foundAt (hasher : Key → Nat) (N : Nat) (t : OpenAddressingTable)
    (key : Key) (j : Nat) (h : FoundAt hasher N t key j) :
    insert_loop hasher N t key N 0 = (Except.error Error.DuplicateKey, t) := by
  obtain ⟨hj, hp, hs, hk⟩ := h
  rcases insert_loop_spec hasher N t key N 0 with ⟨_, h2⟩ | ⟨h1, _⟩ | ⟨j', _, hj', hp', hs', _⟩
  · exact absurd hk (h2 j (Nat.zero_le _) (by omega)).2
  · exact h1
  · exfalso
    rcases Nat.lt_trichotomy j j' with hlt | heq | hgt
    · exact (hp' j (Nat.zero_le _) hlt).2 hk
    · subst heq; exact hs' hs
    · exact hs' (hp j' (Nat.zero_le _) hgt).1

/-- After a successful `remove` the scan of `get` for the same key fails. -/
theorem remove_ok_get (hasher : Key → Nat) (N : Nat) (t : OpenAddressingTable) (key : Key)
    (hlen : t.entries.length = N) (h : (remove hasher N t key).1 = Except.ok ()) :
    get hasher N (remove hasher N t key).2 key =
      (Except.error Error.NotFound, (remove hasher N t key).2) := by
  obtain ⟨j, hj, hp, hs, hk, h1⟩ := remove_ok_effect hasher N t key h
  have hlt : hash_function hasher N key j < t.entries.length := by
    rw [hlen]; exact hash_function_lt hasher (by omega) key j
  unfold get
  rw [h1]
  congr 1
  apply get_loop_notfound hasher N _ key N 0 j (Nat.zero_le _) (by omega)
  · intro l hl1 hl2
    have hne : hash_function hasher N key l ≠ hash_function hasher N key j := by
      intro heq
      apply (hp l hl1 hl2).2
      rw [heq]
      exact ⟨hs, hk⟩
    rw [slot_set_other t _ _ _ _ hne]
    exact (hp l hl1 hl2).2
  · rw [slot_set_self _ _ _ _ hlt]
    simp

/-- A key that the scan reaches is rejected by `insert`: `TableFull` on a full
table, `DuplicateKey` otherwise. -/
theorem insert_of_foundAt (hasher : Key → Nat) (N : Nat) (t : OpenAddressingTable)
    (key : Key) (j : Nat) (h : FoundAt hasher N t key j) :
    insert hasher N t key =
      (Except.error (if t.occupied_count = N then Error.TableFull else Error.DuplicateKey), t) := by
  by_cases hfull : t.occupied_count = N
  · rw [insert_of_full hasher N t key hfull]
    simp [hfull]
  · rw [insert_of_not_full hasher N t key hfull, insert_loop_of_foundAt hasher N t key j h]
    simp [hfull]

theorem occupied_slots_le (t : OpenAddressingTable) : t.occupied_slots ≤ t.entries.length :=
  List.countP_le_length _

theorem occupied_slots_set_occupied (l : List Entry) (c c' h : Nat) (key : Key)
    (hh : h < l.length)
    (hs : (slot { occupied_count := c, entries := l } h).state ≠ EntryState.OCCUPIED) :
    occupied_slots { occupied_count := c', entries := l.set h (Entry.mk key EntryState.OCCUPIED) } =
      occupied_slots { occupied_count := c, entries := l } + 1 := by
  have hget : (slot { occupied_count := c, entries := l } h) = l[h] :=
    slot_eq_getElem { occupied_count := c, entries := l } h hh
  rw [hget] at hs
  simp only [occupied_slots]
  rw [List.countP_set _ _ _ _ hh]
  simp [hs]

theorem occupied_slots_set_deleted (l : List Entry) (c c' h : Nat) (key : Key)
    (hh : h < l.length)
    (hs : (slot { occupied_count := c, entries := l } h).state = EntryState.OCCUPIED) :
    occupied_slots { occupied_count := c', entries := l.set h (Entry.mk key EntryState.DELETED) } + 1 =
      occupied_slots { occupied_count := c, entries := l } := by
  have hget : (slot { occupied_count := c, entries := l } h) = l[h] :=
    slot_eq_getElem { occupied_count := c, entries := l } h hh
  rw [hget] at hs
  simp only [occupied_slots]
  rw [List.countP_set _ _ _ _ hh]
  have hle := List.boole_getElem_le_countP (fun e => decide (e.state = EntryState.OCCUPIED)) l h hh
  simp only [hs, decide_True, if_true] at hle
  simp only [hs, decide_True, if_true, reduceCtorEq, decide_False, Bool.false_eq_true, if_false]
  omega

/-- One call keeps `occupied_count` equal to the number of `OCCUPIED` slots. -/
theorem counted_step (hasher : Key → Nat) (N : Nat) (hN : N < 2 ^ 64) (t : OpenAddressingTable)
    (op : Op) (hlen : t.entries.length = N) (hc : t.occupied_count = t.occupied_slots) :
    (step hasher N t op).occupied_count = (step hasher N t op).occupied_slots := by
  have hle := occupied_slots_le t
  cases op with
  | get key => exact hc
  | insert key =>
    show (insert hasher N t key).2.occupied_count = (insert hasher N t key).2.occupied_slots
    rcases insert_result_cases hasher N t key with hr | ⟨e, hr⟩
    · obtain ⟨hfull, j, hj, _, hs, h1⟩ := insert_ok_effect hasher N t key hr
      have hlt : hash_function hasher N key j < t.entries.length := by
        rw [hlen]; exact hash_function_lt hasher (by omega) key j
      rw [h1]
      have := occupied_slots_set_occupied t.entries t.occupied_count
        ((t.occupied_count + 1) % SIZE_T_MOD) _ key hlt hs
      rw [this]
      show (t.occupied_count + 1) % SIZE_T_MOD = t.occupied_slots + 1
      rw [← hc]
      apply Nat.mod_eq_of_lt
      simp only [SIZE_T_MOD]
      omega
    · rw [insert_error_state hasher N t key e hr]; exact hc
  | remove key =>
    show (remove hasher N t key).2.occupied_count = (remove hasher N t key).2.occupied_slots
    rcases remove_result_cases hasher N t key with hr | ⟨e, hr⟩
    · obtain ⟨j, hj, _, hs, _, h1⟩ := remove_ok_effect hasher N t key hr
      have hlt : hash_function hasher N key j < t.entries.length := by
        rw [hlen]; exact hash_function_lt hasher (by omega) key j
      rw [h1]
      have := occupied_slots_set_deleted t.entries t.occupied_count
        ((t.occupied_count + SIZE_T_MOD - 1) % SIZE_T_MOD) _
        (t.slot (hash_function hasher N key j)).key hlt hs
      have h2 : t.occupied_slots = t.occupied_count := hc.symm
      show (t.occupied_count + SIZE_T_MOD - 1) % SIZE_T_MOD = _
      have h3 : occupied_slots { occupied_count := t.occupied_count, entries := t.entries } =
          t.occupied_slots := rfl
      rw [h3] at this
      simp only [SIZE_T_MOD] at this ⊢
      omega
    · rw [remove_error_state hasher N t key e hr]; exact hc

theorem counted_run (hasher : Key → Nat) (N : Nat) (hN : N < 2 ^ 64) (ops : List Op) :
    (run hasher N (new N) ops).occupied_count = (run hasher N (new N) ops).occupied_slots := by
  induction ops using List.reverseRecOn with
  | nil => simp [run, new, occupied_slots, Entry.default, List.countP_replicate]
  | append_singleton ops op ih =>
    rw [run_append]
    exact counted_step hasher N hN _ op (length_new_run hasher N ops) ih

theorem slot_new (N h : Nat) : (new N).slot h = Entry.default := by
  simp only [slot, new, List.getD_eq_getElem?_getD]
  by_cases hh : h < N
  · simp [List.getElem?_replicate, hh]
  · simp [List.getElem?_replicate, hh]

/-- A `get` that returns has reached the key. -/
theorem get_ok_foundAt (hasher : Key → Nat) (N : Nat) (t : OpenAddressingTable) (key v : Key)
    (h : (get hasher N t key).1 = Except.ok v) : v = key ∧ ∃ j, FoundAt hasher N t key j := by
  unfold get at h
  rcases get_loop_spec hasher N t key N 0 with h1 | ⟨h1, j, _, hj, hp, hs, hk⟩
  · simp only [h1] at h
    simp at h
  · simp only [h1] at h
    refine ⟨?_, j, by omega, hp, hs, hk⟩
    injection h with h
    exact h.symm

/-- The scan reaches the slot that a successful `insert` has just written. -/
theorem foundAt_after_write (hasher : Key → Nat) (N : Nat) (t : OpenAddressingTable)
    (key : Key) (c j : Nat) (hlen : t.entries.length = N) (hj : j < N)
    (hp : Passes hasher N t key 0 j)
    (hs : (t.slot (hash_function hasher N key j)).state ≠ EntryState.OCCUPIED) :
    FoundAt hasher N
      { occupied_count := c,
        entries := t.entries.set (hash_function hasher N key j)
          (Entry.mk key EntryState.OCCUPIED) } key j := by
  have hlt : hash_function hasher N key j < t.entries.length := by
    rw [hlen]; exact hash_function_lt hasher (by omega) key j
  refine ⟨hj, ?_, ?_⟩
  · intro l hl1 hl2
    have hne : hash_function hasher N key l ≠ hash_function hasher N key j := by
      intro heq
      rw [← heq] at hs
      exact hs (hp l hl1 hl2).1
    rw [slot_set_other t _ _ _ _ hne]
    exact hp l hl1 hl2
  · rw [slot_set_self _ _ _ _ hlt]
    exact ⟨rfl, rfl⟩

theorem allFound_new (hasher : Key → Nat) (N : Nat) : AllFound hasher N (new N) := by
  intro h _ hocc
  rw [slot_new] at hocc
  simp [Entry.default] at hocc

/-- An `insert` call keeps every stored key reached by its scan. -/
theorem allFound_insert (hasher : Key → Nat) (N : Nat) (t : OpenAddressingTable) (key : Key)
    (hlen : t.entries.length = N) (hall : AllFound hasher N t) :
    AllFound hasher N (insert hasher N t key).2 := by
  rcases insert_result_cases hasher N t key with hr | ⟨e, hr⟩
  · obtain ⟨_, j0, hj0, hp, hs, h1⟩ := insert_ok_effect hasher N t key hr
    have hlt : hash_function hasher N key j0 < t.entries.length := by
      rw [hlen]; exact hash_function_lt hasher (by omega) key j0
    intro h hh hocc
    by_cases heq : h = hash_function hasher N key j0
    · have hslot : (insert hasher N t key).2.slot h = Entry.mk key EntryState.OCCUPIED := by
        rw [h1, heq]
        exact slot_set_self _ _ _ _ hlt
      rw [hslot]
      refine ⟨j0, ?_, heq.symm⟩
      rw [h1]
      exact foundAt_after_write hasher N t key _ j0 hlen hj0 hp hs
    · have hslot : (insert hasher N t key).2.slot h = t.slot h := by
        rw [h1]
        exact slot_set_other t _ _ _ _ heq
      rw [hslot] at hocc ⊢
      obtain ⟨j, hf, hj⟩ := hall h hh hocc
      exact ⟨j, foundAt_insert hasher N t _ key j hf, hj⟩
  · rw [insert_error_state hasher N t key e hr]
    exact hall

theorem length_insert_all (hasher : Key → Nat) (N : Nat) (t : OpenAddressingTable)
    (keys : List Key) : (insert_all hasher N t keys).entries.length = t.entries.length := by
  induction keys generalizing t with
  | nil => rfl
  | cons key rest ih =>
    show (insert_all hasher N (insert hasher N t key).2 rest).entries.length = _
    rw [ih, length_insert]

theorem allFound_insert_all (hasher : Key → Nat) (N : Nat) (t : OpenAddressingTable)
    (keys : List Key) (hlen : t.entries.length = N) (hall : AllFound hasher N t) :
    AllFound hasher N (insert_all hasher N t keys) := by
  induction keys generalizing t with
  | nil => exact hall
  | cons key rest ih =>
    show AllFound hasher N (insert_all hasher N (insert hasher N t key).2 rest)
    exact ih _ (by rw [length_insert]; exact hlen) (allFound_insert hasher N t key hlen hall)

/-- Two reached slots with the same key are the same slot. -/
theorem foundAt_unique (hasher : Key → Nat) (N : Nat) (t : OpenAddressingTable) (key : Key)
    (j1 j2 : Nat) (h1 : FoundAt hasher N t key j1) (h2 : FoundAt hasher N t key j2) :
    j1 = j2 := by
  obtain ⟨_, hp1, _, hk1⟩ := h1
  obtain ⟨_, hp2, _, hk2⟩ := h2
  rcases Nat.lt_trichotomy j1 j2 with hlt | heq | hgt
  · exact absurd hk1 (hp2 j1 (Nat.zero_le _) hlt).2
  · exact heq
  · exact absurd hk2 (hp1 j2 (Nat.zero_le _) hgt).2

end OpenAddressingTable

end HashExperiments

/-! ## Probe sequences that cover the table -/

namespace HashExperiments

namespace OpenAddressingTable

/-- Without wrap-around the probes of a key are `(c + i) % N` for a fixed `c`. -/
theorem hash_function_linear (hasher : Key → Nat) (N : Nat) (key : Key)
    (h : NoWrap hasher N key) :
    ∃ c, ∀ i, i < N → hash_function hasher N key i = (c + i) % N := by
  rcases h with hdvd | hfit
  · refine ⟨hasher key, fun i _ => ?_⟩
    unfold hash_function
    exact Nat.mod_mod_of_dvd _ (Nat.dvd_of_mod_eq_zero hdvd)
  · refine ⟨hasher key % SIZE_T_MOD, fun i hi => ?_⟩
    unfold hash_function
    have h1 : (hasher key + i) % SIZE_T_MOD = hasher key % SIZE_T_MOD + i := by
      rw [Nat.add_mod]
      have h2 : i % SIZE_T_MOD = i := Nat.mod_eq_of_lt (by omega)
      rw [h2]
      exact Nat.mod_eq_of_lt (by omega)
    rw [h1]

/-- Without wrap-around the `N` probes of a key visit every slot. -/
theorem hash_function_onto (hasher : Key → Nat) (N : Nat) (key : Key)
    (h : NoWrap hasher N key) (slot_idx : Nat) (hs : slot_idx < N) :
    ∃ i, i < N ∧ hash_function hasher N key i = slot_idx := by
  obtain ⟨c, hc⟩ := hash_function_linear hasher N key h
  have hN : 0 < N := by omega
  have hlt : (slot_idx + N - c % N) % N < N := Nat.mod_lt _ hN
  refine ⟨(slot_idx + N - c % N) % N, hlt, ?_⟩
  have hcm : c % N < N := Nat.mod_lt _ hN
  have e : (c + (slot_idx + N - c % N) % N) % N = (c % N + (slot_idx + N - c % N)) % N := by
    rw [Nat.add_mod c, Nat.mod_mod, Nat.add_mod (c % N) (slot_idx + N - c % N), Nat.mod_mod]
  have : c % N + (slot_idx + N - c % N) = slot_idx + N := by omega
  rw [hc _ hlt, e, this, Nat.add_mod_right]
  exact Nat.mod_eq_of_lt hs

/-- Without wrap-around two of the `N` probes of a key never meet the same slot. -/
theorem hash_function_inj (hasher : Key → Nat) (N : Nat) (key : Key)
    (h : NoWrap hasher N key) (i j : Nat) (hi : i < N) (hj : j < N)
    (heq : hash_function hasher N key i = hash_function hasher N key j) : i = j := by
  obtain ⟨c, hc⟩ := hash_function_linear hasher N key h
  rw [hc i hi, hc j hj] at heq
  have h1 : (c + i) % N = (c % N + i) % N := by rw [Nat.add_mod, Nat.mod_eq_of_lt hi]
  have h2 : (c + j) % N = (c % N + j) % N := by rw [Nat.add_mod, Nat.mod_eq_of_lt hj]
  rw [h1, h2] at heq
  have hcm : c % N < N := Nat.mod_lt _ (by omega)
  generalize c % N = r at heq hcm
  have e1 : (r + i) % N = if r + i < N then r + i else r + i - N := by
    split
    · exact Nat.mod_eq_of_lt (by assumption)
    · rw [Nat.mod_eq_sub_mod (by omega)]
      exact Nat.mod_eq_of_lt (by omega)
  have e2 : (r + j) % N = if r + j < N then r + j else r + j - N := by
    split
    · exact Nat.mod_eq_of_lt (by assumption)
    · rw [Nat.mod_eq_sub_mod (by omega)]
      exact Nat.mod_eq_of_lt (by omega)
  rw [e1, e2] at heq
  split at heq <;> split at heq <;> omega

/-- A table whose slots are all `OCCUPIED` counts as many `OCCUPIED` slots as
it has slots. -/
theorem occupied_slots_of_all (t : OpenAddressingTable)
    (h : ∀ slot_idx, slot_idx < t.entries.length →
      (t.slot slot_idx).state = EntryState.OCCUPIED) :
    t.occupied_slots = t.entries.length := by
  unfold occupied_slots
  rw [List.countP_eq_length]
  intro e he
  obtain ⟨n, hn, hget⟩ := List.getElem_of_mem he
  have := h n hn
  rw [slot_eq_getElem t n hn, hget] at this
  simp [this]

/-- Without wrap-around a scan that steps over all `N` probes has seen every
slot `OCCUPIED`. -/
theorem all_occupied_of_passes (hasher : Key → Nat) (N : Nat) (t : OpenAddressingTable)
    (key : Key) (hw : NoWrap hasher N key) (hlen : t.entries.length = N)
    (hp : Passes hasher N t key 0 N) : t.occupied_slots = N := by
  rw [← hlen]
  apply occupied_slots_of_all
  intro slot_idx hs
  rw [hlen] at hs
  obtain ⟨i, hi, hprobe⟩ := hash_function_onto hasher N key hw slot_idx hs
  rw [← hprobe]
  exact (hp i (Nat.zero_le _) hi).1

theorem insert_all_append (hasher : Key → Nat) (N : Nat) (t : OpenAddressingTable)
    (keys : List Key) (key : Key) :
    insert_all hasher N t (keys ++ [key]) =
      (insert hasher N (insert_all hasher N t keys) key).2 := by
  simp [insert_all, List.foldl_append]

theorem insert_all_eq_run (hasher : Key → Nat) (N : Nat) (t : OpenAddressingTable)
    (keys : List Key) :
    insert_all hasher N t keys = run hasher N t (keys.map Op.insert) := by
  induction keys generalizing t with
  | nil => rfl
  | cons key rest ih =>
    show insert_all hasher N (insert hasher N t key).2 rest = _
    rw [ih]
    rfl

/-- Without wrap-around, `insert` of a key that no `OCCUPIED` slot holds
succeeds on a table that is not full and whose counter is exact. -/
theorem insert_ok_of_absent (hasher : Key → Nat) (N : Nat) (t : OpenAddressingTable)
    (key : Key) (hw : NoWrap hasher N key) (hlen : t.entries.length = N)
    (hc : t.occupied_count = t.occupied_slots) (hfull : t.occupied_count ≠ N)
    (habs : ∀ slot_idx, slot_idx < N →
      (t.slot slot_idx).state = EntryState.OCCUPIED → (t.slot slot_idx).key ≠ key) :
    (insert hasher N t key).1 = Except.ok () := by
  rw [insert_of_not_full hasher N _ key hfull]
  rcases insert_loop_spec hasher N t key N 0 with
    ⟨_, hp⟩ | ⟨_, j, _, hj, _, hs, hk⟩ | ⟨j, _, _, _, _, h1⟩
  · exfalso
    apply hfull
    rw [hc]
    rw [Nat.zero_add] at hp
    exact all_occupied_of_passes hasher N _ key hw hlen hp
  · exfalso
    have hlt : hash_function hasher N key j < N := hash_function_lt hasher (by omega) key j
    exact habs _ hlt hs hk
  · rw [h1]

theorem counted_insert_all (hasher : Key → Nat) (N : Nat) (hN : N < 2 ^ 64)
    (keys : List Key) :
    (insert_all hasher N (new N) keys).occupied_count =
      (insert_all hasher N (new N) keys).occupied_slots := by
  rw [insert_all_eq_run]
  exact counted_run hasher N hN _

/-- Inserting pairwise distinct keys whose probes do not wrap into the fresh
table: every call succeeds, the counter is the number of keys, and the
`OCCUPIED` slots hold inserted keys only. -/
theorem insert_all_distinct (hasher : Key → Nat) (N : Nat) (hN : N < 2 ^ 64)
    (keys : List Key) (hnd : keys.Nodup) (hle : keys.length ≤ N)
    (hw : ∀ key, key ∈ keys → NoWrap hasher N key) :
    (insert_all hasher N (new N) keys).occupied_count = keys.length ∧
    (∀ slot_idx, slot_idx < N →
      ((insert_all hasher N (new N) keys).slot slot_idx).state = EntryState.OCCUPIED →
      ((insert_all hasher N (new N) keys).slot slot_idx).key ∈ keys) ∧
    (∀ init key rest, keys = init ++ key :: rest →
      (insert hasher N (insert_all hasher N (new N) init) key).1 = Except.ok ()) := by
  induction keys using List.reverseRecOn with
  | nil =>
    refine ⟨rfl, ?_, ?_⟩
    · intro slot_idx _ hocc
      have : (insert_all hasher N (new N) []).slot slot_idx = Entry.default := slot_new N slot_idx
      rw [this] at hocc
      simp [Entry.default] at hocc
    · intro init key rest h
      simp at h
  | append_singleton pre k ih =>
    have hnd' : pre.Nodup := hnd.of_append_left
    have hk : k ∉ pre := by
      intro hmem
      have := List.nodup_append.mp hnd
      exact this.2.2 hmem (List.mem_singleton.mpr rfl)
    have hlen' : pre.length < N := by
      simp at hle
      omega
    obtain ⟨ih1, ih2, ih3⟩ := ih hnd' (by omega)
      (fun key hkey => hw key (List.mem_append_left _ hkey))
    have hlen : (insert_all hasher N (new N) pre).entries.length = N := by
      rw [length_insert_all]; simp [new]
    have hok : (insert hasher N (insert_all hasher N (new N) pre) k).1 = Except.ok () := by
      apply insert_ok_of_absent hasher N _ k (hw k (by simp)) hlen
        (counted_insert_all hasher N hN pre) (by omega)
      intro slot_idx hs hocc heq
      exact hk (heq ▸ ih2 slot_idx hs hocc)
    obtain ⟨_, j, hj, _, hs, h1⟩ := insert_ok_effect hasher N _ k hok
    have hlt : hash_function hasher N k j < (insert_all hasher N (new N) pre).entries.length := by
      rw [hlen]; exact hash_function_lt hasher (by omega) k j
    rw [insert_all_append]
    refine ⟨?_, ?_, ?_⟩
    · rw [h1]
      show ((insert_all hasher N (new N) pre).occupied_count + 1) % SIZE_T_MOD = _
      rw [ih1, List.length_append, List.length_singleton]
      apply Nat.mod_eq_of_lt
      simp only [SIZE_T_MOD]
      omega
    · intro slot_idx hsl hocc
      by_cases heq : slot_idx = hash_function hasher N k j
      · have hslot : (insert hasher N (insert_all hasher N (new N) pre) k).2.slot slot_idx =
            Entry.mk k EntryState.OCCUPIED := by
          rw [h1, heq]
          exact slot_set_self _ _ _ _ hlt
        rw [hslot]
        simp
      · have hslot : (insert hasher N (insert_all hasher N (new N) pre) k).2.slot slot_idx =
            (insert_all hasher N (new N) pre).slot slot_idx := by
          rw [h1]
          exact slot_set_other _ _ _ _ _ heq
        rw [hslot] at hocc ⊢
        exact List.mem_append_left _ (ih2 slot_idx hsl hocc)
    · intro init key rest h
      rcases List.eq_nil_or_concat rest with hnil | ⟨rest', x, hcat⟩
      · subst hnil
        have := List.append_inj' h rfl
        obtain ⟨h2, h3⟩ := this
        simp at h3
        subst h2 h3
        exact hok
      · rw [hcat, List.concat_eq_append] at h
        have h' : pre ++ [k] = (init ++ key :: rest') ++ [x] := by
          rw [h]; simp
        have := List.append_inj_left' h' rfl
        exact ih3 init key rest' this

end OpenAddressingTable

end HashExperiments

/-! ## The bucket loops of the hybrid storage -/

namespace HashExperiments

namespace TinyStorage

/-- The bucket loop of `get` looks at the one slot `fast_table[bucket_idx]`,
whatever the number of iterations. -/
theorem get_loop_eq (s : TinyStorage) (key : Key) (bucket_idx W i : Nat) (hW : 0 < W) :
    get_loop s key bucket_idx W i =
      if (s.fast bucket_idx).key = key then some (s.fast bucket_idx).key else none := by
  induction W generalizing i with
  | zero => omega
  | succ n ih =>
    unfold get_loop
    by_cases hk : (s.fast bucket_idx).key = key
    · simp [hk]
    · simp only [hk, if_false]
      cases n with
      | zero => rfl
      | succ m =>
        rw [ih (i + 1) (by omega)]
        simp [hk]

/-- The bucket loop of `insert` looks at the one slot `fast_table[bucket_idx]`,
whatever the number of iterations. -/
theorem insert_loop_eq (s : TinyStorage) (key : Key) (bucket_idx W i : Nat) (hW : 0 < W) :
    insert_loop s key bucket_idx W i =
      if (s.fast bucket_idx).state = EntryState.OCCUPIED then none
      else some { s with fast_table :=
        (s.fast_table.set bucket_idx (Entry.mk key EntryState.OCCUPIED)) } := by
  induction W generalizing i with
  | zero => omega
  | succ n ih =>
    unfold insert_loop
    by_cases hs : (s.fast bucket_idx).state = EntryState.OCCUPIED
    · simp only [hs, if_true]
      cases n with
      | zero => rfl
      | succ m =>
        rw [ih (i + 1) (by omega)]
        simp [hs]
    · simp [hs]

/-- The bucket loop of `remove` looks at the one slot `fast_table[bucket_idx]`,
whatever the number of iterations. -/
theorem remove_loop_eq (s : TinyStorage) (key : Key) (bucket_idx W i : Nat) (hW : 0 < W) :
    remove_loop s key bucket_idx W i =
      if (s.fast bucket_idx).state = EntryState.OCCUPIED ∧ (s.fast bucket_idx).key = key then
        some { s with fast_table :=
          (s.fast_table.set bucket_idx
            (Entry.mk (s.fast bucket_idx).key EntryState.DELETED)) }
      else none := by
  induction W generalizing i with
  | zero => omega
  | succ n ih =>
    unfold remove_loop
    by_cases hs : (s.fast bucket_idx).state = EntryState.OCCUPIED ∧ (s.fast bucket_idx).key = key
    · simp [hs]
    · simp only [hs, if_false]
      cases n with
      | zero => rfl
      | succ m =>
        rw [ih (i + 1) (by omega)]
        simp [hs]

theorem get_of_fast_key (hasher : Key → Nat) (N : Nat) (s : TinyStorage) (key : Key)
    (h : (s.fast (hash_function hasher s key)).key = key) :
    get hasher N s key = (Except.ok key, s) := by
  simp only [get, get_width]
  rw [get_loop_eq s key _ SUB_SIZE 0 (by decide)]
  simp [h]

theorem get_of_not_fast_key (hasher : Key → Nat) (N : Nat) (s : TinyStorage) (key : Key)
    (h : (s.fast (hash_function hasher s key)).key ≠ key) :
    get hasher N s key =
      ((s.overflow_data.get hasher N key).1,
        { s with overflow_data := (s.overflow_data.get hasher N key).2 }) := by
  simp only [get, get_width]
  rw [get_loop_eq s key _ SUB_SIZE 0 (by decide)]
  simp [h]

theorem insert_of_fast_free (hasher : Key → Nat) (N : Nat) (s : TinyStorage) (key : Key)
    (h : (s.fast (hash_function hasher s key)).state ≠ EntryState.OCCUPIED) :
    insert hasher N s key =
      (Except.ok (),
        { s with fast_table :=
          (s.fast_table.set (hash_function hasher s key) (Entry.mk key EntryState.OCCUPIED)) }) := by
  simp only [insert, insert_width]
  rw [insert_loop_eq s key _ SUB_SIZE 0 (by decide)]
  simp [h]

theorem insert_of_fast_occupied (hasher : Key → Nat) (N : Nat) (s : TinyStorage) (key : Key)
    (h : (s.fast (hash_function hasher s key)).state = EntryState.OCCUPIED) :
    insert hasher N s key =
      ((s.overflow_data.insert hasher N key).1,
        { s with overflow_data := (s.overflow_data.insert hasher N key).2 }) := by
  simp only [insert, insert_width]
  rw [insert_loop_eq s key _ SUB_SIZE 0 (by decide)]
  simp [h]

theorem remove_of_fast_hit (hasher : Key → Nat) (N : Nat) (s : TinyStorage) (key : Key)
    (h : (s.fast (hash_function hasher s key)).state = EntryState.OCCUPIED ∧
      (s.fast (hash_function hasher s key)).key = key) :
    remove hasher N s key =
      (Except.ok (),
        { s with fast_table :=
          (s.fast_table.set (hash_function hasher s key)
            (Entry.mk (s.fast (hash_function hasher s key)).key EntryState.DELETED)) }) := by
  simp only [remove, remove_width]
  rw [remove_loop_eq s key _ SUB_SIZE 0 (by decide)]
  simp [h]

theorem remove_of_fast_miss (hasher : Key → Nat) (N : Nat) (s : TinyStorage) (key : Key)
    (h : ¬ ((s.fast (hash_function hasher s key)).state = EntryState.OCCUPIED ∧
      (s.fast (hash_function hasher s key)).key = key)) :
    remove hasher N s key =
      ((s.overflow_data.remove hasher N key).1,
        { s with overflow_data := (s.overflow_data.remove hasher N key).2 }) := by
  simp only [remove, remove_width]
  rw [remove_loop_eq s key _ SUB_SIZE 0 (by decide)]
  simp [h]

/-- A failing call on the hybrid storage leaves it as it was. -/
theorem tiny_insert_error_state (hasher : Key → Nat) (N : Nat) (s : TinyStorage) (key : Key)
    (e : Error) (h : (insert hasher N s key).1 = Except.error e) :
    (insert hasher N s key).2 = s := by
  by_cases hs : (s.fast (hash_function hasher s key)).state = EntryState.OCCUPIED
  · rw [insert_of_fast_occupied hasher N s key hs] at h ⊢
    simp only at h ⊢
    rw [OpenAddressingTable.insert_error_state hasher N _ key e h]
  · rw [insert_of_fast_free hasher N s key hs] at h
    simp at h

theorem get_state (hasher : Key → Nat) (N : Nat) (s : TinyStorage) (key : Key) :
    (get hasher N s key).2 = s := by
  by_cases hk : (s.fast (hash_function hasher s key)).key = key
  · rw [get_of_fast_key hasher N s key hk]
  · rw [get_of_not_fast_key hasher N s key hk]
    rfl

theorem tiny_remove_error_state (hasher : Key → Nat) (N : Nat) (s : TinyStorage) (key : Key)
    (e : Error) (h : (remove hasher N s key).1 = Except.error e) :
    (remove hasher N s key).2 = s := by
  by_cases hs : (s.fast (hash_function hasher s key)).state = EntryState.OCCUPIED ∧
      (s.fast (hash_function hasher s key)).key = key
  · rw [remove_of_fast_hit hasher N s key hs] at h
    simp at h
  · rw [remove_of_fast_miss hasher N s key hs] at h ⊢
    simp only at h ⊢
    rw [OpenAddressingTable.remove_error_state hasher N _ key e h]

end TinyStorage

end HashExperiments

/-! ## Stored keys of the hybrid storage -/

namespace HashExperiments

namespace TinyStorage

theorem fast_set_self (s : TinyStorage) (o : OpenAddressingTable) (F b : Nat) (e : Entry)
    (hb : b < s.fast_table.length) :
    fast { fast_table := s.fast_table.set b e, overflow_data := o, fast_table_size := F } b = e := by
  simp [fast, List.getElem?_set, hb]

theorem fast_set_other (s : TinyStorage) (o : OpenAddressingTable) (F b b' : Nat) (e : Entry)
    (hne : b' ≠ b) :
    fast { fast_table := s.fast_table.set b e, overflow_data := o, fast_table_size := F } b' =
      s.fast b' := by
  simp [fast, List.getElem?_set, Ne.symm hne]

theorem bucket_lt (hasher : Key → Nat) (s : TinyStorage) (key : Key)
    (h : 0 < s.fast_table_size) : hash_function hasher s key < s.fast_table_size :=
  Nat.mod_lt _ h

theorem shl_int_one (bits : Nat) : shl_int 1 bits = 2 ^ (bits % 32) := by
  unfold shl_int
  rw [Nat.one_mul]
  apply Nat.mod_eq_of_lt
  exact Nat.pow_lt_pow_right (by decide) (Nat.mod_lt _ (by decide))

theorem fast_table_size_pos (N : Nat) : 0 < (new N).fast_table_size := by
  show 0 < int_to_size_t (shl_int 1 (Nat.clog 2 N - 1))
  rw [shl_int_one]
  have h1 : 0 < 2 ^ ((Nat.clog 2 N - 1) % 32) := Nat.pos_pow_of_pos _ (by decide)
  unfold int_to_size_t
  split
  · exact h1
  · simp only [SIZE_T_MOD]
    omega

theorem fast_new (N b : Nat) : (new N).fast b = Entry.default := by
  simp only [fast, new, List.getD_eq_getElem?_getD]
  by_cases hb : b < int_to_size_t (shl_int 1 (Nat.clog 2 N - 1))
  · simp [List.getElem?_replicate, hb]
  · simp [List.getElem?_replicate, hb]

theorem wellFormed_new (N : Nat) : WellFormed N (new N) := by
  refine ⟨?_, ?_, ?_⟩
  · simp [new]
  · exact fast_table_size_pos N
  · simp [new, OpenAddressingTable.new]

theorem fast_table_size_insert (hasher : Key → Nat) (N : Nat) (s : TinyStorage) (key : Key) :
    (insert hasher N s key).2.fast_table_size = s.fast_table_size := by
  by_cases hs : (s.fast (hash_function hasher s key)).state = EntryState.OCCUPIED
  · rw [insert_of_fast_occupied hasher N s key hs]
  · rw [insert_of_fast_free hasher N s key hs]

theorem hash_function_insert (hasher : Key → Nat) (N : Nat) (s : TinyStorage)
    (other key : Key) :
    hash_function hasher (insert hasher N s other).2 key = hash_function hasher s key := by
  simp only [hash_function, fast_table_size_insert]

theorem wellFormed_insert (hasher : Key → Nat) (N : Nat) (s : TinyStorage) (key : Key)
    (h : WellFormed N s) : WellFormed N (insert hasher N s key).2 := by
  obtain ⟨h1, h2, h3⟩ := h
  by_cases hs : (s.fast (hash_function hasher s key)).state = EntryState.OCCUPIED
  · rw [insert_of_fast_occupied hasher N s key hs]
    refine ⟨h1, h2, ?_⟩
    show (OpenAddressingTable.insert hasher N s.overflow_data key).2.entries.length = N
    rw [OpenAddressingTable.length_insert, h3]
  · rw [insert_of_fast_free hasher N s key hs]
    refine ⟨?_, h2, h3⟩
    simp [h1]

theorem wellFormed_insert_all (hasher : Key → Nat) (N : Nat) (s : TinyStorage)
    (keys : List Key) (h : WellFormed N s) : WellFormed N (insert_all hasher N s keys) := by
  induction keys generalizing s with
  | nil => exact h
  | cons key rest ih =>
    show WellFormed N (insert_all hasher N (insert hasher N s key).2 rest)
    exact ih _ (wellFormed_insert hasher N s key h)

/-- A stored key stays stored across a later `insert` call. -/
theorem stored_insert (hasher : Key → Nat) (N : Nat) (s : TinyStorage) (key other : Key)
    (h : Stored hasher N s key) : Stored hasher N (insert hasher N s other).2 key := by
  unfold Stored
  rw [hash_function_insert]
  by_cases hs : (s.fast (hash_function hasher s other)).state = EntryState.OCCUPIED
  · rw [insert_of_fast_occupied hasher N s other hs]
    rcases h with hfast | ⟨j, hj⟩
    · left; exact hfast
    · right
      exact ⟨j, OpenAddressingTable.foundAt_insert hasher N _ key other j hj⟩
  · rw [insert_of_fast_free hasher N s other hs]
    rcases h with hfast | ⟨j, hj⟩
    · left
      have hne : hash_function hasher s key ≠ hash_function hasher s other := by
        intro heq
        rw [heq] at hfast
        exact hs hfast.1
      rw [fast_set_other s _ _ _ _ _ hne]
      exact hfast
    · right; exact ⟨j, hj⟩

theorem stored_insert_all (hasher : Key → Nat) (N : Nat) (s : TinyStorage) (key : Key)
    (later : List Key) (h : Stored hasher N s key) :
    Stored hasher N (insert_all hasher N s later) key := by
  induction later generalizing s with
  | nil => exact h
  | cons other rest ih =>
    show Stored hasher N (insert_all hasher N (insert hasher N s other).2 rest) key
    exact ih _ (stored_insert hasher N s key other h)

/-- A successful `insert` stores the key. -/
theorem insert_ok_stored (hasher : Key → Nat) (N : Nat) (s : TinyStorage) (key : Key)
    (hwf : WellFormed N s) (h : (insert hasher N s key).1 = Except.ok ()) :
    Stored hasher N (insert hasher N s key).2 key := by
  obtain ⟨h1, h2, h3⟩ := hwf
  unfold Stored
  rw [hash_function_insert]
  by_cases hs : (s.fast (hash_function hasher s key)).state = EntryState.OCCUPIED
  · rw [insert_of_fast_occupied hasher N s key hs] at h ⊢
    right
    exact OpenAddressingTable.insert_ok_foundAt hasher N _ key h3 h
  · rw [insert_of_fast_free hasher N s key hs]
    left
    have hb : hash_function hasher s key < s.fast_table.length := by
      rw [h1]; exact bucket_lt hasher s key h2
    rw [fast_set_self s _ _ _ _ hb]
    exact ⟨rfl, rfl⟩

/-- A stored key is returned by `get`. -/
theorem stored_get (hasher : Key → Nat) (N : Nat) (s : TinyStorage) (key : Key)
    (h : Stored hasher N s key) : (get hasher N s key).1 = Except.ok key := by
  by_cases hk : (s.fast (hash_function hasher s key)).key = key
  · rw [get_of_fast_key hasher N s key hk]
  · rw [get_of_not_fast_key hasher N s key hk]
    rcases h with hfast | ⟨j, hj⟩
    · exact absurd hfast.2 hk
    · show (OpenAddressingTable.get hasher N s.overflow_data key).1 = _
      rw [OpenAddressingTable.foundAt_get hasher N _ key j hj]

/-- The capacity-4 storage as constructed: two fast slots, four overflow slots. -/
theorem new_four :
    new 4 =
      { fast_table := [Entry.default, Entry.default],
        overflow_data := OpenAddressingTable.new 4,
        fast_table_size := 2 } := by
  simp [new, Nat.clog, shl_int, int_to_size_t]

/-- The capacity-2 storage as constructed: one fast slot, two overflow slots. -/
theorem new_two :
    new 2 =
      { fast_table := [Entry.default],
        overflow_data := OpenAddressingTable.new 2,
        fast_table_size := 1 } := by
  simp [new, Nat.clog, shl_int, int_to_size_t]

end TinyStorage

end HashExperiments

/-! ## Claims on the open-addressing table -/

namespace HashExperiments

section OpenAddressingClaims

open OpenAddressingTable

set_option maxRecDepth 100000

/-- C1: in a table reached from the fresh capacity-`N` table by any calls, once
`insert(key)` has succeeded, any sequence of further `insert` calls (successful
or failing) leaves `get(key)` returning `key`. -/
theorem C1_insert_then_get (hasher : Key → Nat) (N : Nat) (ops : List Op) (key : Key)
    (later : List Key)
    (h : (insert hasher N (run hasher N (new N) ops) key).1 = Except.ok ()) :
    (get hasher N
      (insert_all hasher N (insert hasher N (run hasher N (new N) ops) key).2 later) key).1 =
      Except.ok key := by
  obtain ⟨j, hj⟩ := insert_ok_foundAt hasher N _ key (length_new_run hasher N ops) h
  rw [foundAt_get hasher N _ key j (foundAt_insert_all hasher N _ key later j hj)]

/-- Witness of C1 at capacity 2: after `insert 0, insert 2, remove 0`, the call
`insert 4` succeeds, the later `insert 6` and `insert 4` fail, and `get 4`
returns 4. -/
theorem C1_insert_then_get_witness :
    (insert std_hash 2
      (run std_hash 2 (new 2) [Op.insert 0, Op.insert 2, Op.remove 0]) 4).1 = Except.ok () ∧
    (get std_hash 2
      (insert_all std_hash 2
        (insert std_hash 2
          (run std_hash 2 (new 2) [Op.insert 0, Op.insert 2, Op.remove 0]) 4).2 [6, 4]) 4).1 =
      Except.ok 4 :=
  ⟨by decide,
    C1_insert_then_get std_hash 2 [Op.insert 0, Op.insert 2, Op.remove 0] 4 [6, 4] (by decide)⟩

/-- C3 fails at capacity 3 with the identity hash: the keys `0, 1, -1` are
pairwise distinct, `insert 0` and `insert 1` succeed, and the third call
`insert (-1)` throws "table is full" with one slot still `EMPTY`: the probes of
`-1` are slots `0, 0, 1`, because `2 ^ 64 - 1 + 1` wraps to `0` in `size_t`. -/
theorem C3_capacity_bound_counterexample :
    [(0 : Key), 1, -1].Nodup ∧
    List.map (fun i => hash_function std_hash 3 (-1) i) [0, 1, 2] = [0, 0, 1] ∧
    (insert std_hash 3 (new 3) 0).1 = Except.ok () ∧
    (insert std_hash 3 (insert_all std_hash 3 (new 3) [0]) 1).1 = Except.ok () ∧
    insert std_hash 3 (insert_all std_hash 3 (new 3) [0, 1]) (-1) =
      (Except.error Error.TableFull,
        { occupied_count := 2,
          entries := [Entry.mk 0 EntryState.OCCUPIED, Entry.mk 1 EntryState.OCCUPIED,
            Entry.mk 0 EntryState.EMPTY] }) := by
  decide

/-- C3, amended: for a capacity `N` (a `size_t`) and `N` pairwise distinct keys
whose probe sums do not wrap (`N` divides `2 ^ 64`, as every power-of-two
capacity does, or `hasher(key) + N ≤ 2 ^ 64` for each key), inserting them in
order into the fresh table succeeds for each key, and the next `insert`, of any
key, throws "table is full" and changes nothing. -/
theorem C3_capacity_bound (hasher : Key → Nat) (N : Nat) (hN : N < 2 ^ 64) (keys : List Key)
    (hlen : keys.length = N) (hnd : keys.Nodup)
    (hw : ∀ key, key ∈ keys → NoWrap hasher N key) :
    (∀ init key rest, keys = init ++ key :: rest →
      (insert hasher N (insert_all hasher N (new N) init) key).1 = Except.ok ()) ∧
    (∀ key, insert hasher N (insert_all hasher N (new N) keys) key =
      (Except.error Error.TableFull, insert_all hasher N (new N) keys)) := by
  obtain ⟨h1, _, h3⟩ := insert_all_distinct hasher N hN keys hnd (by omega) hw
  refine ⟨h3, fun key => ?_⟩
  exact insert_of_full hasher N _ key (by rw [h1, hlen])

/-- Witness of C3 at capacity 4 with the keys `-1, 3, 7, 0`, which all probe
slot 3 first: the four calls succeed and a fifth `insert 9` throws
"table is full". -/
theorem C3_capacity_bound_witness :
    (4 < 2 ^ 64 ∧ [(-1 : Key), 3, 7, 0].length = 4 ∧ [(-1 : Key), 3, 7, 0].Nodup ∧
      ∀ key, key ∈ [(-1 : Key), 3, 7, 0] → NoWrap std_hash 4 key) ∧
    ((insert std_hash 4 (insert_all std_hash 4 (new 4) []) (-1)).1 = Except.ok () ∧
      (insert std_hash 4 (insert_all std_hash 4 (new 4) [-1]) 3).1 = Except.ok () ∧
      (insert std_hash 4 (insert_all std_hash 4 (new 4) [-1, 3]) 7).1 = Except.ok () ∧
      (insert std_hash 4 (insert_all std_hash 4 (new 4) [-1, 3, 7]) 0).1 = Except.ok ()) ∧
    insert std_hash 4 (insert_all std_hash 4 (new 4) [-1, 3, 7, 0]) 9 =
      (Except.error Error.TableFull, insert_all std_hash 4 (new 4) [-1, 3, 7, 0]) :=
  have hw : ∀ key, key ∈ [(-1 : Key), 3, 7, 0] → NoWrap std_hash 4 key :=
    fun _ _ => Or.inl (by decide)
  have h := C3_capacity_bound std_hash 4 (by decide) [-1, 3, 7, 0] rfl (by decide) hw
  ⟨⟨by decide, rfl, by decide, hw⟩,
    ⟨h.1 [] (-1) [3, 7, 0] rfl, h.1 [-1] 3 [7, 0] rfl, h.1 [-1, 3] 7 [0] rfl,
      h.1 [-1, 3, 7] 0 [] rfl⟩,
    h.2 9⟩

/-- C4 fails on a table that the first `insert` fills: at capacity 1 the call
`insert 5` succeeds and the second `insert 5` throws "table is full", not
"key already exists". -/
theorem C4_full_table_counterexample :
    (insert std_hash 1 (new 1) 5).1 = Except.ok () ∧
    (insert std_hash 1 (insert std_hash 1 (new 1) 5).2 5).1 = Except.error Error.TableFull ∧
    (insert std_hash 1 (insert std_hash 1 (new 1) 5).2 5).1 ≠
      Except.error Error.DuplicateKey := by
  decide

/-- C4, amended: in a reachable table, if `insert(key)` succeeds then an
immediately following `insert(key)` fails, with `DuplicateKey` when the first
call left `occupied_count < N` and with `TableFull` when it left
`occupied_count = N`; the failed call leaves the whole table, `occupied_count`
included, as it was. -/
theorem C4_duplicate_rejection (hasher : Key → Nat) (N : Nat) (ops : List Op) (key : Key)
    (h : (insert hasher N (run hasher N (new N) ops) key).1 = Except.ok ()) :
    insert hasher N (insert hasher N (run hasher N (new N) ops) key).2 key =
      (Except.error
        (if (insert hasher N (run hasher N (new N) ops) key).2.occupied_count = N
          then Error.TableFull else Error.DuplicateKey),
        (insert hasher N (run hasher N (new N) ops) key).2) := by
  obtain ⟨j, hj⟩ := insert_ok_foundAt hasher N _ key (length_new_run hasher N ops) h
  exact insert_of_foundAt hasher N _ key j hj

/-- Witness of C4 at capacity 3: after `insert 0, insert 3, remove 0`, the call
`insert 6` succeeds and the second `insert 6` throws "key already exists". -/
theorem C4_duplicate_rejection_witness :
    (insert std_hash 3
      (run std_hash 3 (new 3) [Op.insert 0, Op.insert 3, Op.remove 0]) 6).1 = Except.ok () ∧
    insert std_hash 3
      (insert std_hash 3
        (run std_hash 3 (new 3) [Op.insert 0, Op.insert 3, Op.remove 0]) 6).2 6 =
      (Except.error Error.DuplicateKey,
        { occupied_count := 2,
          entries := [Entry.mk 6 EntryState.OCCUPIED, Entry.mk 3 EntryState.OCCUPIED,
            Entry.mk 0 EntryState.EMPTY] }) :=
  ⟨by decide,
    (C4_duplicate_rejection std_hash 3 [Op.insert 0, Op.insert 3, Op.remove 0] 6
      (by decide)).trans (by decide)⟩

/-- C5: in a reachable table, if `remove(key)` succeeds then an immediately
following `get(key)` fails with `NotFound` (and writes nothing). -/
theorem C5_remove_then_get (hasher : Key → Nat) (N : Nat) (ops : List Op) (key : Key)
    (h : (remove hasher N (run hasher N (new N) ops) key).1 = Except.ok ()) :
    get hasher N (remove hasher N (run hasher N (new N) ops) key).2 key =
      (Except.error Error.NotFound, (remove hasher N (run hasher N (new N) ops) key).2) :=
  remove_ok_get hasher N _ key (length_new_run hasher N ops) h

/-- Witness of C5 at capacity 3: after `insert 0, insert 3, insert 6, remove 0`
the call `remove 6` succeeds past the tombstone and `get 6` then fails. -/
theorem C5_remove_then_get_witness :
    (remove std_hash 3
      (run std_hash 3 (new 3) [Op.insert 0, Op.insert 3, Op.insert 6, Op.remove 0]) 6).1 =
      Except.ok () ∧
    (get std_hash 3
      (remove std_hash 3
        (run std_hash 3 (new 3) [Op.insert 0, Op.insert 3, Op.insert 6, Op.remove 0]) 6).2 6).1 =
      Except.error Error.NotFound :=
  ⟨by decide,
    congrArg Prod.fst
      (C5_remove_then_get std_hash 3 [Op.insert 0, Op.insert 3, Op.insert 6, Op.remove 0] 6
        (by decide))⟩

/-- C6 fails twice. By the guard of `insert`: at capacity 1, key 5 is held by
the `OCCUPIED` slot 0 and `insert 5` throws "table is full". By tombstone
reuse: at capacity 2, after `insert 0, insert 2, remove 0`, key 2 is held by
the `OCCUPIED` slot 1, yet `insert 2` succeeds on the tombstone in slot 0 and
both slots end `OCCUPIED` with key 2. -/
theorem C6_create_only_counterexample :
    ((run std_hash 1 (new 1) [Op.insert 5]).slot 0 = Entry.mk 5 EntryState.OCCUPIED ∧
      (insert std_hash 1 (run std_hash 1 (new 1) [Op.insert 5]) 5).1 =
        Except.error Error.TableFull) ∧
    ((run std_hash 2 (new 2) [Op.insert 0, Op.insert 2, Op.remove 0]).slot 1 =
        Entry.mk 2 EntryState.OCCUPIED ∧
      insert std_hash 2 (run std_hash 2 (new 2) [Op.insert 0, Op.insert 2, Op.remove 0]) 2 =
        (Except.ok (),
          { occupied_count := 2,
            entries := [Entry.mk 2 EntryState.OCCUPIED, Entry.mk 2 EntryState.OCCUPIED] })) := by
  decide

/-- C6, amended: in a reachable table, `insert(key)` of a key that `get(key)`
finds fails and changes nothing, with `DuplicateKey` when `occupied_count < N`
and with `TableFull` when `occupied_count = N`; in a table reached by `insert`
calls alone, `insert` of the key of any `OCCUPIED` slot fails in that way, and
no two `OCCUPIED` slots hold equal keys. -/
theorem C6_create_only (hasher : Key → Nat) (N : Nat) :
    (∀ (ops : List Op) (key : Key),
      (get hasher N (run hasher N (new N) ops) key).1 = Except.ok key →
      insert hasher N (run hasher N (new N) ops) key =
        (Except.error
          (if (run hasher N (new N) ops).occupied_count = N
            then Error.TableFull else Error.DuplicateKey),
          run hasher N (new N) ops)) ∧
    (∀ (keys : List Key) (h1 : Nat), h1 < N →
      ((insert_all hasher N (new N) keys).slot h1).state = EntryState.OCCUPIED →
      insert hasher N (insert_all hasher N (new N) keys)
          ((insert_all hasher N (new N) keys).slot h1).key =
        (Except.error
          (if (insert_all hasher N (new N) keys).occupied_count = N
            then Error.TableFull else Error.DuplicateKey),
          insert_all hasher N (new N) keys) ∧
      ∀ h2, h2 < N →
        ((insert_all hasher N (new N) keys).slot h2).state = EntryState.OCCUPIED →
        ((insert_all hasher N (new N) keys).slot h2).key =
          ((insert_all hasher N (new N) keys).slot h1).key → h2 = h1) := by
  constructor
  · intro ops key hget
    obtain ⟨_, j, hj⟩ := get_ok_foundAt hasher N _ key key hget
    exact insert_of_foundAt hasher N _ key j hj
  · intro keys h1 hh1 hocc1
    have hall : AllFound hasher N (insert_all hasher N (new N) keys) :=
      allFound_insert_all hasher N (new N) keys (by simp [new]) (allFound_new hasher N)
    obtain ⟨j1, hf1, hj1⟩ := hall h1 hh1 hocc1
    refine ⟨insert_of_foundAt hasher N _ _ j1 hf1, ?_⟩
    intro h2 hh2 hocc2 hkey
    obtain ⟨j2, hf2, hj2⟩ := hall h2 hh2 hocc2
    rw [hkey] at hf2 hj2
    rw [← hj1, ← hj2, foundAt_unique hasher N _ _ j2 j1 hf2 hf1]

/-- Witness of C6 at capacity 3: after `insert 0, insert 3, remove 0, insert 6`
`get 3` finds key 3 and `insert 3` throws "key already exists"; after the
`insert` calls of `0, 3, 6, 1` slot 1 is `OCCUPIED` with key 3 and `insert 3`
throws "table is full". -/
theorem C6_create_only_witness :
    ((get std_hash 3
        (run std_hash 3 (new 3) [Op.insert 0, Op.insert 3, Op.remove 0, Op.insert 6]) 3).1 =
        Except.ok 3 ∧
      (insert std_hash 3
        (run std_hash 3 (new 3) [Op.insert 0, Op.insert 3, Op.remove 0, Op.insert 6]) 3).1 =
        Except.error Error.DuplicateKey) ∧
    ((1 < 3 ∧ ((insert_all std_hash 3 (new 3) [0, 3, 6, 1]).slot 1).state =
        EntryState.OCCUPIED) ∧
      (insert std_hash 3 (insert_all std_hash 3 (new 3) [0, 3, 6, 1])
        ((insert_all std_hash 3 (new 3) [0, 3, 6, 1]).slot 1).key).1 =
        Except.error Error.TableFull) :=
  ⟨⟨by decide,
      (congrArg Prod.fst ((C6_create_only std_hash 3).1
        [Op.insert 0, Op.insert 3, Op.remove 0, Op.insert 6] 3 (by decide))).trans
        (by decide)⟩,
    ⟨⟨by decide, by decide⟩,
      (congrArg Prod.fst ((C6_create_only std_hash 3).2 [0, 3, 6, 1] 1 (by decide)
        (by decide)).1).trans (by decide)⟩⟩

/-- C7: in every table reached from the fresh capacity-`N` table (`N` a
`size_t`) by `insert`, `get` and `remove` calls, `occupied_count` is the number
of `OCCUPIED` slots and `0 ≤ occupied_count ≤ N`. -/
theorem C7_counter_invariant (hasher : Key → Nat) (N : Nat) (hN : N < 2 ^ 64)
    (ops : List Op) :
    (run hasher N (new N) ops).occupied_count = (run hasher N (new N) ops).occupied_slots ∧
    0 ≤ (run hasher N (new N) ops).occupied_count ∧
    (run hasher N (new N) ops).occupied_count ≤ N := by
  have hc := counted_run hasher N hN ops
  refine ⟨hc, Nat.zero_le _, ?_⟩
  rw [hc]
  have := occupied_slots_le (run hasher N (new N) ops)
  rw [length_new_run] at this
  exact this

/-- Witness of C7 at capacity 3 on the calls
`insert 0, insert 3, get 3, remove 0, remove 9, insert 7, insert 7`. -/
theorem C7_counter_invariant_witness :
    3 < 2 ^ 64 ∧
    (run std_hash 3 (new 3) [Op.insert 0, Op.insert 3, Op.get 3, Op.remove 0, Op.remove 9,
        Op.insert 7, Op.insert 7]).occupied_count =
      (run std_hash 3 (new 3) [Op.insert 0, Op.insert 3, Op.get 3, Op.remove 0, Op.remove 9,
        Op.insert 7, Op.insert 7]).occupied_slots ∧
    0 ≤ (run std_hash 3 (new 3) [Op.insert 0, Op.insert 3, Op.get 3, Op.remove 0, Op.remove 9,
        Op.insert 7, Op.insert 7]).occupied_count ∧
    (run std_hash 3 (new 3) [Op.insert 0, Op.insert 3, Op.get 3, Op.remove 0, Op.remove 9,
        Op.insert 7, Op.insert 7]).occupied_count ≤ 3 :=
  ⟨by decide, C7_counter_invariant std_hash 3 (by decide) _⟩

end OpenAddressingClaims

end HashExperiments

/-! ## Claims on the hybrid storage -/

namespace HashExperiments

section TinyStorageClaims

set_option maxRecDepth 100000

/-- C2: on a freshly constructed `TinyStorage`, after any sequence of `insert`
calls, a key whose `insert` call returned is returned by `get` after any
further `insert` calls, whether it went to the fast array or to the overflow
table. -/
theorem C2_tiny_insert_then_get (hasher : Key → Nat) (N : Nat) (before : List Key)
    (key : Key) (later : List Key)
    (h : (TinyStorage.insert hasher N
      (TinyStorage.insert_all hasher N (TinyStorage.new N) before) key).1 = Except.ok ()) :
    (TinyStorage.get hasher N
      (TinyStorage.insert_all hasher N
        (TinyStorage.insert hasher N
          (TinyStorage.insert_all hasher N (TinyStorage.new N) before) key).2 later) key).1 =
      Except.ok key := by
  apply TinyStorage.stored_get
  apply TinyStorage.stored_insert_all
  apply TinyStorage.insert_ok_stored hasher N _ key _ h
  exact TinyStorage.wellFormed_insert_all hasher N _ before (TinyStorage.wellFormed_new N)

/-- Witness of C2 at capacity 4 (two fast slots): after `insert 1` (fast array)
and `insert 3` (overflow), `insert 5` succeeds in the overflow table, the later
`insert 7, insert 5, insert 9` succeed or fail, and `get 5` returns 5. -/
theorem C2_tiny_insert_then_get_witness :
    (TinyStorage.insert std_hash 4
      (TinyStorage.insert_all std_hash 4 (TinyStorage.new 4) [1, 3]) 5).1 = Except.ok () ∧
    (TinyStorage.get std_hash 4
      (TinyStorage.insert_all std_hash 4
        (TinyStorage.insert std_hash 4
          (TinyStorage.insert_all std_hash 4 (TinyStorage.new 4) [1, 3]) 5).2 [7, 5, 9]) 5).1 =
      Except.ok 5 :=
  ⟨by rw [TinyStorage.new_four]; decide,
    C2_tiny_insert_then_get std_hash 4 [1, 3] 5 [7, 5, 9]
      (by rw [TinyStorage.new_four]; decide)⟩

/-- C8: a call that throws leaves the container as it was, slot for slot and
counter included: `insert`, `get` and `remove` of `OpenAddressingTable` and of
`TinyStorage`, in any state. -/
theorem C8_atomic_failure (hasher : Key → Nat) (N : Nat) (t : OpenAddressingTable)
    (s : TinyStorage) (key : Key) :
    (∀ e, (t.insert hasher N key).1 = Except.error e → (t.insert hasher N key).2 = t) ∧
    (∀ e, (t.get hasher N key).1 = Except.error e → (t.get hasher N key).2 = t) ∧
    (∀ e, (t.remove hasher N key).1 = Except.error e → (t.remove hasher N key).2 = t) ∧
    (∀ e, (s.insert hasher N key).1 = Except.error e → (s.insert hasher N key).2 = s) ∧
    (∀ e, (s.get hasher N key).1 = Except.error e → (s.get hasher N key).2 = s) ∧
    (∀ e, (s.remove hasher N key).1 = Except.error e → (s.remove hasher N key).2 = s) :=
  ⟨fun e h => OpenAddressingTable.insert_error_state hasher N t key e h,
    fun _ _ => rfl,
    fun e h => OpenAddressingTable.remove_error_state hasher N t key e h,
    fun e h => TinyStorage.tiny_insert_error_state hasher N s key e h,
    fun _ _ => TinyStorage.get_state hasher N s key,
    fun e h => TinyStorage.tiny_remove_error_state hasher N s key e h⟩

/-- Witness of C8 at capacity 2, key 7: on the full table reached by
`insert 5, insert 6` and on the storage reached by `insert 5, insert 6,
insert 8` (overflow full), all six calls throw and change nothing. -/
theorem C8_atomic_failure_witness :
    (((OpenAddressingTable.run std_hash 2 (OpenAddressingTable.new 2)
          [Op.insert 5, Op.insert 6]).insert std_hash 2 7).1 = Except.error Error.TableFull ∧
      ((OpenAddressingTable.run std_hash 2 (OpenAddressingTable.new 2)
          [Op.insert 5, Op.insert 6]).insert std_hash 2 7).2 =
        OpenAddressingTable.run std_hash 2 (OpenAddressingTable.new 2)
          [Op.insert 5, Op.insert 6]) ∧
    (((OpenAddressingTable.run std_hash 2 (OpenAddressingTable.new 2)
          [Op.insert 5, Op.insert 6]).get std_hash 2 7).1 = Except.error Error.NotFound ∧
      ((OpenAddressingTable.run std_hash 2 (OpenAddressingTable.new 2)
          [Op.insert 5, Op.insert 6]).get std_hash 2 7).2 =
        OpenAddressingTable.run std_hash 2 (OpenAddressingTable.new 2)
          [Op.insert 5, Op.insert 6]) ∧
    (((OpenAddressingTable.run std_hash 2 (OpenAddressingTable.new 2)
          [Op.insert 5, Op.insert 6]).remove std_hash 2 7).1 = Except.error Error.NotFound ∧
      ((OpenAddressingTable.run std_hash 2 (OpenAddressingTable.new 2)
          [Op.insert 5, Op.insert 6]).remove std_hash 2 7).2 =
        OpenAddressingTable.run std_hash 2 (OpenAddressingTable.new 2)
          [Op.insert 5, Op.insert 6]) ∧
    (((TinyStorage.run std_hash 2 (TinyStorage.new 2)
          [Op.insert 5, Op.insert 6, Op.insert 8]).insert std_hash 2 7).1 =
        Except.error Error.TableFull ∧
      ((TinyStorage.run std_hash 2 (TinyStorage.new 2)
          [Op.insert 5, Op.insert 6, Op.insert 8]).insert std_hash 2 7).2 =
        TinyStorage.run std_hash 2 (TinyStorage.new 2)
          [Op.insert 5, Op.insert 6, Op.insert 8]) ∧
    (((TinyStorage.run std_hash 2 (TinyStorage.new 2)
          [Op.insert 5, Op.insert 6, Op.insert 8]).get std_hash 2 7).1 =
        Except.error Error.NotFound ∧
      ((TinyStorage.run std_hash 2 (TinyStorage.new 2)
          [Op.insert 5, Op.insert 6, Op.insert 8]).get std_hash 2 7).2 =
        TinyStorage.run std_hash 2 (TinyStorage.new 2)
          [Op.insert 5, Op.insert 6, Op.insert 8]) ∧
    (((TinyStorage.run std_hash 2 (TinyStorage.new 2)
          [Op.insert 5, Op.insert 6, Op.insert 8]).remove std_hash 2 7).1 =
        Except.error Error.NotFound ∧
      ((TinyStorage.run std_hash 2 (TinyStorage.new 2)
          [Op.insert 5, Op.insert 6, Op.insert 8]).remove std_hash 2 7).2 =
        TinyStorage.run std_hash 2 (TinyStorage.new 2)
          [Op.insert 5, Op.insert 6, Op.insert 8]) :=
  have h := C8_atomic_failure std_hash 2
    (OpenAddressingTable.run std_hash 2 (OpenAddressingTable.new 2) [Op.insert 5, Op.insert 6])
    (TinyStorage.run std_hash 2 (TinyStorage.new 2) [Op.insert 5, Op.insert 6, Op.insert 8]) 7
  have e1 : ((OpenAddressingTable.run std_hash 2 (OpenAddressingTable.new 2)
      [Op.insert 5, Op.insert 6]).insert std_hash 2 7).1 = Except.error Error.TableFull := by
    decide
  have e2 : ((OpenAddressingTable.run std_hash 2 (OpenAddressingTable.new 2)
      [Op.insert 5, Op.insert 6]).get std_hash 2 7).1 = Except.error Error.NotFound := by
    decide
  have e3 : ((OpenAddressingTable.run std_hash 2 (OpenAddressingTable.new 2)
      [Op.insert 5, Op.insert 6]).remove std_hash 2 7).1 = Except.error Error.NotFound := by
    decide
  have e4 : ((TinyStorage.run std_hash 2 (TinyStorage.new 2)
      [Op.insert 5, Op.insert 6, Op.insert 8]).insert std_hash 2 7).1 =
      Except.error Error.TableFull := by
    rw [TinyStorage.new_two]; decide
  have e5 : ((TinyStorage.run std_hash 2 (TinyStorage.new 2)
      [Op.insert 5, Op.insert 6, Op.insert 8]).get std_hash 2 7).1 =
      Except.error Error.NotFound := by
    rw [TinyStorage.new_two]; decide
  have e6 : ((TinyStorage.run std_hash 2 (TinyStorage.new 2)
      [Op.insert 5, Op.insert 6, Op.insert 8]).remove std_hash 2 7).1 =
      Except.error Error.NotFound := by
    rw [TinyStorage.new_two]; decide
  ⟨⟨e1, h.1 _ e1⟩, ⟨e2, h.2.1 _ e2⟩, ⟨e3, h.2.2.1 _ e3⟩, ⟨e4, h.2.2.2.1 _ e4⟩,
    ⟨e5, h.2.2.2.2.1 _ e5⟩, ⟨e6, h.2.2.2.2.2 _ e6⟩⟩

/-- C9 at capacity 4 with the identity hash: `insert 1` twice. Both calls
return; the first writes fast slot 1, the second finds that slot `OCCUPIED`
and, without comparing its key, writes overflow slot 1: key 1 is held by an
`OCCUPIED` slot of the fast array and by one of the overflow table. -/
theorem C9_key_in_both_tables :
    (TinyStorage.insert std_hash 4 (TinyStorage.new 4) 1).1 = Except.ok () ∧
    (TinyStorage.insert std_hash 4
      (TinyStorage.insert std_hash 4 (TinyStorage.new 4) 1).2 1).1 = Except.ok () ∧
    (TinyStorage.run std_hash 4 (TinyStorage.new 4) [Op.insert 1, Op.insert 1]).fast 1 =
      Entry.mk 1 EntryState.OCCUPIED ∧
    (TinyStorage.run std_hash 4 (TinyStorage.new 4)
      [Op.insert 1, Op.insert 1]).overflow_data.slot 1 = Entry.mk 1 EntryState.OCCUPIED := by
  rw [TinyStorage.new_four]
  decide

/-- C10: `get` compares the key of the home bucket without reading its state.
On every freshly constructed storage no slot is `OCCUPIED`, yet `get 0`
returns 0; at capacity 4, after `insert 1` and `remove 1`, no slot is
`OCCUPIED`, yet `get 1` returns 1 from the tombstone. -/
theorem C10_get_reads_stale_key :
    (∀ (hasher : Key → Nat) (N : Nat),
      (∀ b, ((TinyStorage.new N).fast b).state = EntryState.EMPTY) ∧
      (∀ h, ((TinyStorage.new N).overflow_data.slot h).state = EntryState.EMPTY) ∧
      (TinyStorage.get hasher N (TinyStorage.new N) 0).1 = Except.ok 0) ∧
    ((TinyStorage.run std_hash 4 (TinyStorage.new 4) [Op.insert 1, Op.remove 1]).fast_table =
        [Entry.mk 0 EntryState.EMPTY, Entry.mk 1 EntryState.DELETED] ∧
      (TinyStorage.run std_hash 4 (TinyStorage.new 4)
        [Op.insert 1, Op.remove 1]).overflow_data = OpenAddressingTable.new 4 ∧
      (TinyStorage.get std_hash 4
        (TinyStorage.run std_hash 4 (TinyStorage.new 4) [Op.insert 1, Op.remove 1]) 1).1 =
        Except.ok 1) := by
  constructor
  · intro hasher N
    have hfast : ∀ b, (TinyStorage.new N).fast b = Entry.default :=
      TinyStorage.fast_new N
    refine ⟨fun b => by rw [hfast]; rfl, fun h => ?_, ?_⟩
    · show ((OpenAddressingTable.new N).slot h).state = _
      rw [OpenAddressingTable.slot_new]; rfl
    · rw [TinyStorage.get_of_fast_key hasher N _ 0 (by rw [hfast]; rfl)]
  · rw [TinyStorage.new_four]
    decide

end TinyStorageClaims

end HashExperiments

/-! ## Slot transitions and the reach of `remove` -/

namespace HashExperiments

namespace OpenAddressingTable

theorem slot_set_out_of_range (t : OpenAddressingTable) (c h h' : Nat) (e : Entry)
    (hh : t.entries.length ≤ h) :
    slot { occupied_count := c, entries := t.entries.set h e } h' = t.slot h' := by
  show (t.entries.set h e).getD h' Entry.default = t.entries.getD h' Entry.default
  have : t.entries.set h e = t.entries := by
    apply List.ext_getElem
    · simp
    · intro n h1 h2
      rw [List.getElem_set]
      split
      · omega
      · rfl
  rw [this]

/-- Slot by slot, an `insert` call changes no state or turns `EMPTY` or
`DELETED` into `OCCUPIED`. -/
theorem insert_transition (hasher : Key → Nat) (N : Nat) (t : OpenAddressingTable)
    (key : Key) (h : Nat) :
    InsertTransition (t.slot h).state ((insert hasher N t key).2.slot h).state := by
  rcases insert_result_cases hasher N t key with hr | ⟨e, hr⟩
  · obtain ⟨_, j, _, _, hs, h1⟩ := insert_ok_effect hasher N t key hr
    rw [h1]
    by_cases heq : h = hash_function hasher N key j
    · by_cases hlt : hash_function hasher N key j < t.entries.length
      · rw [heq, slot_set_self _ _ _ _ hlt]
        rcases state_cases (t.slot (hash_function hasher N key j)).state with h2 | h2 | h2
        · right; left; exact ⟨h2, rfl⟩
        · exact absurd h2 hs
        · right; right; exact ⟨h2, rfl⟩
      · left
        rw [slot_set_out_of_range t _ _ _ _ (by omega)]
    · left
      rw [slot_set_other t _ _ _ _ heq]
  · rw [insert_error_state hasher N t key e hr]
    left; rfl

/-- Slot by slot, a `remove` call changes no state or turns `OCCUPIED` into
`DELETED`. -/
theorem remove_transition (hasher : Key → Nat) (N : Nat) (t : OpenAddressingTable)
    (key : Key) (h : Nat) :
    RemoveTransition (t.slot h).state ((remove hasher N t key).2.slot h).state := by
  rcases remove_result_cases hasher N t key with hr | ⟨e, hr⟩
  · obtain ⟨j, _, _, hs, _, h1⟩ := remove_ok_effect hasher N t key hr
    rw [h1]
    by_cases heq : h = hash_function hasher N key j
    · by_cases hlt : hash_function hasher N key j < t.entries.length
      · rw [heq, slot_set_self _ _ _ _ hlt]
        right; exact ⟨hs, rfl⟩
      · left
        rw [slot_set_out_of_range t _ _ _ _ (by omega)]
    · left
      rw [slot_set_other t _ _ _ _ heq]
  · rw [remove_error_state hasher N t key e hr]
    left; rfl

/-- No call turns a slot that is not `EMPTY` into an `EMPTY` one. -/
theorem step_keeps_nonempty (hasher : Key → Nat) (N : Nat) (t : OpenAddressingTable)
    (op : Op) (h : Nat) (hne : (t.slot h).state ≠ EntryState.EMPTY) :
    ((step hasher N t op).slot h).state ≠ EntryState.EMPTY := by
  cases op with
  | get key => exact hne
  | insert key =>
    show ((insert hasher N t key).2.slot h).state ≠ _
    rcases insert_transition hasher N t key h with h1 | ⟨_, h1⟩ | ⟨_, h1⟩
    · rw [h1]; exact hne
    · rw [h1]; simp
    · rw [h1]; simp
  | remove key =>
    show ((remove hasher N t key).2.slot h).state ≠ _
    rcases remove_transition hasher N t key h with h1 | ⟨_, h1⟩
    · rw [h1]; exact hne
    · rw [h1]; simp

/-- The scan of `remove` succeeds when the key sits at probe `j` with no `EMPTY`
slot at the probes before. -/
theorem remove_ok_of_no_empty (hasher : Key → Nat) (N : Nat) (t : OpenAddressingTable)
    (key : Key) (j : Nat) (hj : j < N)
    (hne : ∀ l, l < j → (t.slot (hash_function hasher N key l)).state ≠ EntryState.EMPTY)
    (hs : (t.slot (hash_function hasher N key j)).state = EntryState.OCCUPIED)
    (hk : (t.slot (hash_function hasher N key j)).key = key) :
    (remove hasher N t key).1 = Except.ok () := by
  unfold remove
  rcases remove_loop_spec hasher N t key N 0 with
    ⟨_, hp⟩ | ⟨_, j', _, hj', hp, he⟩ | ⟨j', _, _, _, _, _, h1⟩
  · exact absurd ⟨hs, hk⟩ (hp j (Nat.zero_le _) (by omega)).2
  · exfalso
    rcases Nat.lt_trichotomy j' j with hlt | heq | hgt
    · exact hne j' hlt he
    · subst heq
      rw [hs] at he
      exact absurd he (by simp)
    · exact (hp j (Nat.zero_le _) hgt).2 ⟨hs, hk⟩
  · rw [h1]

/-- An `insert` call whose first probe meets a slot that is not `OCCUPIED`
writes there. -/
theorem insert_at_first_probe (hasher : Key → Nat) (N : Nat) (t : OpenAddressingTable)
    (key : Key) (hN : 0 < N) (hfull : t.occupied_count ≠ N)
    (hs : (t.slot (hash_function hasher N key 0)).state ≠ EntryState.OCCUPIED) :
    insert hasher N t key =
      (Except.ok (),
        { occupied_count := (t.occupied_count + 1) % SIZE_T_MOD,
          entries := t.entries.set (hash_function hasher N key 0)
            (Entry.mk key EntryState.OCCUPIED) }) := by
  rw [insert_of_not_full hasher N t key hfull]
  rcases insert_loop_spec hasher N t key N 0 with
    ⟨_, hp⟩ | ⟨_, j, _, _, hp, hs', _⟩ | ⟨j, _, _, hp, _, h1⟩
  · exact absurd (hp 0 (le_refl _) (by omega)).1 hs
  · exfalso
    by_cases hj : j = 0
    · subst hj; exact hs hs'
    · exact hs (hp 0 (le_refl _) (by omega)).1
  · by_cases hj : j = 0
    · subst hj; exact h1
    · exact absurd (hp 0 (le_refl _) (by omega)).1 hs

/-- A `remove` call whose first probe meets the key tombstones that slot. -/
theorem remove_at_first_probe (hasher : Key → Nat) (N : Nat) (t : OpenAddressingTable)
    (key : Key) (hN : 0 < N)
    (hs : (t.slot (hash_function hasher N key 0)).state = EntryState.OCCUPIED)
    (hk : (t.slot (hash_function hasher N key 0)).key = key) :
    remove hasher N t key =
      (Except.ok (),
        { occupied_count := (t.occupied_count + SIZE_T_MOD - 1) % SIZE_T_MOD,
          entries := t.entries.set (hash_function hasher N key 0)
            (Entry.mk (t.slot (hash_function hasher N key 0)).key EntryState.DELETED) }) := by
  unfold remove
  rcases remove_loop_spec hasher N t key N 0 with
    ⟨_, hp⟩ | ⟨_, j, _, _, hp, he⟩ | ⟨j, _, _, hp, _, _, h1⟩
  · exact absurd ⟨hs, hk⟩ (hp 0 (le_refl _) (by omega)).2
  · exfalso
    by_cases hj : j = 0
    · subst hj
      rw [hs] at he
      exact absurd he (by simp)
    · exact (hp 0 (le_refl _) (by omega)).2 ⟨hs, hk⟩
  · by_cases hj : j = 0
    · subst hj; exact h1
    · exact absurd ⟨hs, hk⟩ (hp 0 (le_refl _) (by omega)).2

/-- With at least two slots, some probe of a key leaves its home bucket, also
when the `size_t` sum wraps. -/
theorem exists_probe_ne (hasher : Key → Nat) (N : Nat) (key : Key) (hN : 2 ≤ N) :
    ∃ i, i < N ∧ hash_function hasher N key i ≠ hash_function hasher N key 0 := by
  unfold hash_function
  simp only [SIZE_T_MOD, Nat.add_zero]
  by_cases hwrap : hasher key % 2 ^ 64 + 1 < 2 ^ 64
  · refine ⟨1, by omega, ?_⟩
    have h1 : (hasher key + 1) % 2 ^ 64 = hasher key % 2 ^ 64 + 1 := by omega
    rw [h1]
    intro heq
    have h2 : (hasher key % 2 ^ 64 + 1) ≡ (hasher key % 2 ^ 64 + 0) [MOD N] := heq
    have h3 : 1 ≡ 0 [MOD N] := Nat.ModEq.add_left_cancel' _ h2
    have h4 : 1 % N = 0 % N := h3
    rw [Nat.mod_eq_of_lt (by omega), Nat.zero_mod] at h4
    omega
  · have h0 : hasher key % 2 ^ 64 = 2 ^ 64 - 1 := by omega
    have h1 : (hasher key + 1) % 2 ^ 64 = 0 := by omega
    have h2 : (hasher key + 2) % 2 ^ 64 = 1 := by omega
    by_cases hz : (2 ^ 64 - 1) % N = 0
    · have hN3 : N ≠ 2 := by
        intro h
        subst h
        norm_num at hz
      refine ⟨2, by omega, ?_⟩
      rw [h2, h0, hz, Nat.mod_eq_of_lt (by omega)]
      omega
    · refine ⟨1, by omega, ?_⟩
      rw [h1, h0, Nat.zero_mod]
      exact fun h => hz h.symm

end OpenAddressingTable

end HashExperiments

namespace HashExperiments

namespace OpenAddressingTable

theorem entry_eq (e : Entry) (key : Key) (st : EntryState) (hs : e.state = st)
    (hk : e.key = key) : e = Entry.mk key st := by
  cases e
  simp at hs hk
  simp [hs, hk]

theorem noEmptyBefore_new (hasher : Key → Nat) (N : Nat) : NoEmptyBefore hasher N (new N) := by
  intro h _ hocc
  rw [slot_new] at hocc
  simp [Entry.default] at hocc

/-- One call keeps every stored key within the reach of `remove`. -/
theorem noEmptyBefore_step (hasher : Key → Nat) (N : Nat) (t : OpenAddressingTable) (op : Op)
    (hlen : t.entries.length = N) (hinv : NoEmptyBefore hasher N t) :
    NoEmptyBefore hasher N (step hasher N t op) := by
  intro h hh hocc
  have hold : (step hasher N t op).slot h = t.slot h →
      ∃ j, j < N ∧ hash_function hasher N ((step hasher N t op).slot h).key j = h ∧
        ∀ l, l < j →
          ((step hasher N t op).slot
            (hash_function hasher N ((step hasher N t op).slot h).key l)).state ≠
            EntryState.EMPTY := by
    intro hsame
    rw [hsame] at hocc ⊢
    obtain ⟨j, hj, hp, hne⟩ := hinv h hh hocc
    exact ⟨j, hj, hp, fun l hl => step_keeps_nonempty hasher N t op _ (hne l hl)⟩
  cases op with
  | get key => exact hold rfl
  | insert key =>
    rcases insert_result_cases hasher N t key with hr | ⟨e, hr⟩
    · obtain ⟨_, j0, hj0, hp, hs, h1⟩ := insert_ok_effect hasher N t key hr
      have hlt : hash_function hasher N key j0 < t.entries.length := by
        rw [hlen]; exact hash_function_lt hasher (by omega) key j0
      by_cases heq : h = hash_function hasher N key j0
      · have hslot : (step hasher N t (Op.insert key)).slot h =
            Entry.mk key EntryState.OCCUPIED := by
          show (insert hasher N t key).2.slot h = _
          rw [h1, heq]
          exact slot_set_self _ _ _ _ hlt
        rw [hslot]
        refine ⟨j0, hj0, heq.symm, fun l hl => ?_⟩
        apply step_keeps_nonempty hasher N t (Op.insert key)
        rw [(hp l (Nat.zero_le _) hl).1]
        simp
      · apply hold
        show (insert hasher N t key).2.slot h = _
        rw [h1]
        exact slot_set_other t _ _ _ _ heq
    · apply hold
      show (insert hasher N t key).2.slot h = _
      rw [insert_error_state hasher N t key e hr]
  | remove key =>
    rcases remove_result_cases hasher N t key with hr | ⟨e, hr⟩
    · obtain ⟨j0, hj0, _, _, _, h1⟩ := remove_ok_effect hasher N t key hr
      have hlt : hash_function hasher N key j0 < t.entries.length := by
        rw [hlen]; exact hash_function_lt hasher (by omega) key j0
      by_cases heq : h = hash_function hasher N key j0
      · exfalso
        have hslot : ((step hasher N t (Op.remove key)).slot h).state = EntryState.DELETED := by
          show ((remove hasher N t key).2.slot h).state = _
          rw [h1, heq, slot_set_self _ _ _ _ hlt]
        rw [hslot] at hocc
        simp at hocc
      · apply hold
        show (remove hasher N t key).2.slot h = _
        rw [h1]
        exact slot_set_other t _ _ _ _ heq
    · apply hold
      show (remove hasher N t key).2.slot h = _
      rw [remove_error_state hasher N t key e hr]

theorem noEmptyBefore_run (hasher : Key → Nat) (N : Nat) (ops : List Op) :
    NoEmptyBefore hasher N (run hasher N (new N) ops) := by
  induction ops using List.reverseRecOn with
  | nil => exact noEmptyBefore_new hasher N
  | append_singleton ops op ih =>
    rw [run_append]
    exact noEmptyBefore_step hasher N _ op (length_new_run hasher N ops) ih

/-- The table after `insert a, insert b, remove a` on the fresh table, for two
keys with the same home bucket: that bucket is the tombstone of `a`, and `b`
is held by another slot, at a probe of `b` that only the home bucket precedes. -/
theorem asymmetry_state (hasher : Key → Nat) (N : Nat) (a b : Key) (hN : 2 ≤ N) (hab : a ≠ b)
    (hhome : hash_function hasher N a 0 = hash_function hasher N b 0) :
    ∃ q j, q < N ∧ j < N ∧ hash_function hasher N b j = q ∧
      (∀ l, l < j → hash_function hasher N b l = hash_function hasher N a 0) ∧
      (run hasher N (new N) [Op.insert a, Op.insert b, Op.remove a]).slot q =
        Entry.mk b EntryState.OCCUPIED ∧
      (run hasher N (new N) [Op.insert a, Op.insert b, Op.remove a]).slot
        (hash_function hasher N a 0) = Entry.mk a EntryState.DELETED := by
  have hp0 : hash_function hasher N a 0 < N := hash_function_lt hasher (by omega) a 0
  -- the first call writes the home bucket
  have e1 := insert_at_first_probe hasher N (new N) a (by omega)
    (by show (0 : Nat) ≠ N; omega) (by rw [slot_new]; simp [Entry.default])
  have hlen1 : (insert hasher N (new N) a).2.entries.length = N := by
    rw [length_insert]; simp [new]
  have hc1 : (insert hasher N (new N) a).2.occupied_count = 1 := by
    rw [e1]
    show (0 + 1) % SIZE_T_MOD = 1
    simp [SIZE_T_MOD]
  have hs1 : (insert hasher N (new N) a).2.slot (hash_function hasher N a 0) =
      Entry.mk a EntryState.OCCUPIED := by
    rw [e1]
    exact slot_set_self _ _ _ _ (by simp [new]; omega)
  have ho1 : ∀ h, ((insert hasher N (new N) a).2.slot h).state = EntryState.OCCUPIED →
      h = hash_function hasher N a 0 := by
    intro h hocc
    by_contra hne
    rw [e1, slot_set_other (new N) _ _ _ _ hne, slot_new] at hocc
    simp [Entry.default] at hocc
  -- the second call writes another slot
  have hnf : (insert hasher N (new N) a).2.occupied_count ≠ N := by rw [hc1]; omega
  have hok2 : (insert hasher N (insert hasher N (new N) a).2 b).1 = Except.ok () := by
    rw [insert_of_not_full hasher N _ b hnf]
    rcases insert_loop_spec hasher N (insert hasher N (new N) a).2 b N 0 with
      ⟨_, hp⟩ | ⟨_, j, _, _, _, hs, hk⟩ | ⟨j, _, _, _, _, h1⟩
    · exfalso
      obtain ⟨i, hi, hne⟩ := exists_probe_ne hasher N b hN
      apply hne
      rw [← hhome]
      exact ho1 _ (hp i (Nat.zero_le _) (by omega)).1
    · exfalso
      have := ho1 _ hs
      rw [this, hs1] at hk
      exact hab hk
    · rw [h1]
  obtain ⟨_, j, hj, hp, hs, e2⟩ := insert_ok_effect hasher N _ b hok2
  have hq : hash_function hasher N b j < N := hash_function_lt hasher (by omega) b j
  have hqne : hash_function hasher N b j ≠ hash_function hasher N a 0 := by
    intro heq
    rw [heq, hs1] at hs
    exact hs rfl
  have hlen2 : (insert hasher N (insert hasher N (new N) a).2 b).2.entries.length = N := by
    rw [length_insert]; exact hlen1
  have hs2q : (insert hasher N (insert hasher N (new N) a).2 b).2.slot
      (hash_function hasher N b j) = Entry.mk b EntryState.OCCUPIED := by
    rw [e2]
    exact slot_set_self _ _ _ _ (by rw [hlen1]; exact hq)
  have hs2p : (insert hasher N (insert hasher N (new N) a).2 b).2.slot
      (hash_function hasher N a 0) = Entry.mk a EntryState.OCCUPIED := by
    rw [e2, slot_set_other _ _ _ _ _ hqne.symm]
    exact hs1
  -- the third call tombstones the home bucket
  have e3 := remove_at_first_probe hasher N
    (insert hasher N (insert hasher N (new N) a).2 b).2 a (by omega)
    (by rw [hs2p]) (by rw [hs2p])
  have hrun : run hasher N (new N) [Op.insert a, Op.insert b, Op.remove a] =
      (remove hasher N (insert hasher N (insert hasher N (new N) a).2 b).2 a).2 := rfl
  refine ⟨hash_function hasher N b j, j, hq, hj, rfl, ?_, ?_, ?_⟩
  · intro l hl
    exact ho1 _ (hp l (Nat.zero_le _) hl).1
  · rw [hrun, e3, slot_set_other _ _ _ _ _ hqne]
    exact hs2q
  · rw [hrun, e3, slot_set_self _ _ _ _ (by rw [hlen2]; exact hp0), hs2p]

end OpenAddressingTable

end HashExperiments

/-! ## Further claims on the open-addressing table -/

namespace HashExperiments

section OpenAddressingClaims2

open OpenAddressingTable

set_option maxRecDepth 100000

/-- C13 fails at capacity 3 with the identity hash: for key `-1` the sum
`2 ^ 64 - 1 + 1` wraps to `0`, probes `0` and `1` both meet slot 0, and no
probe meets slot 2. -/
theorem C13_probe_permutation_counterexample :
    hash_function std_hash 3 (-1) 0 = 0 ∧ hash_function std_hash 3 (-1) 1 = 0 ∧
    hash_function std_hash 3 (-1) 2 = 1 ∧
    ∀ i, i < 3 → hash_function std_hash 3 (-1) i ≠ 2 := by
  decide

/-- C13, amended: for every capacity `N ≥ 1` and every key whose probe sum does
not wrap (`N` divides `2 ^ 64`, or `hasher(key) + N ≤ 2 ^ 64`), the map
`i ↦ hash_function(key, i)` on `0 ≤ i < N` takes its values in `[0, N)`, is
one-to-one and reaches every slot. -/
theorem C13_probe_permutation (hasher : Key → Nat) (N : Nat) (key : Key)
    (hw : NoWrap hasher N key) :
    (∀ i, i < N → hash_function hasher N key i < N) ∧
    (∀ i j, i < N → j < N →
      hash_function hasher N key i = hash_function hasher N key j → i = j) ∧
    (∀ slot_idx, slot_idx < N → ∃ i, i < N ∧ hash_function hasher N key i = slot_idx) :=
  ⟨fun i hi => hash_function_lt hasher (by omega) key i,
    fun i j hi hj h => hash_function_inj hasher N key hw i j hi hj h,
    fun slot_idx hs => hash_function_onto hasher N key hw slot_idx hs⟩

/-- Witness of C13 at capacity 4 for key `-1`, whose sum wraps while 4 divides
`2 ^ 64`: the probes are slots `3, 0, 1, 2`. -/
theorem C13_probe_permutation_witness :
    NoWrap std_hash 4 (-1) ∧
    List.map (fun i => hash_function std_hash 4 (-1) i) [0, 1, 2, 3] = [3, 0, 1, 2] ∧
    (∀ i, i < 4 → hash_function std_hash 4 (-1) i < 4) ∧
    (∀ i j, i < 4 → j < 4 →
      hash_function std_hash 4 (-1) i = hash_function std_hash 4 (-1) j → i = j) ∧
    (∀ slot_idx, slot_idx < 4 → ∃ i, i < 4 ∧ hash_function std_hash 4 (-1) i = slot_idx) :=
  ⟨Or.inl (by decide), by decide, C13_probe_permutation std_hash 4 (-1) (Or.inl (by decide))⟩

/-- C14: for every capacity `N ≥ 2` and two distinct keys `a`, `b` with the
same home bucket, after `insert(a), insert(b), remove(a)` on the fresh table
key `b` is held by an `OCCUPIED` slot and `remove(b)` succeeds, yet `get(b)`
fails with `NotFound`. -/
theorem C14_tombstone_asymmetry (hasher : Key → Nat) (N : Nat) (a b : Key) (hN : 2 ≤ N)
    (hab : a ≠ b) (hhome : hash_function hasher N a 0 = hash_function hasher N b 0) :
    (∃ slot_idx, slot_idx < N ∧
      (run hasher N (new N) [Op.insert a, Op.insert b, Op.remove a]).slot slot_idx =
        Entry.mk b EntryState.OCCUPIED) ∧
    (remove hasher N (run hasher N (new N) [Op.insert a, Op.insert b, Op.remove a]) b).1 =
      Except.ok () ∧
    (get hasher N (run hasher N (new N) [Op.insert a, Op.insert b, Op.remove a]) b).1 =
      Except.error Error.NotFound := by
  obtain ⟨q, j, hq, hj, hprobe, hbefore, hsq, hsp⟩ := asymmetry_state hasher N a b hN hab hhome
  refine ⟨⟨q, hq, hsq⟩, ?_, ?_⟩
  · apply remove_ok_of_no_empty hasher N _ b j hj
    · intro l hl
      rw [hbefore l hl, hsp]
      simp
    · rw [hprobe, hsq]
    · rw [hprobe, hsq]
  · show get_loop hasher N _ b N 0 = _
    apply get_loop_notfound hasher N _ b N 0 0 (le_refl _) (by omega)
    · intro l h1 h2
      omega
    · rw [← hhome, hsp]
      simp

/-- Witness of C14 at capacity 3 with keys 0 and 3, both of home bucket 0. -/
theorem C14_tombstone_asymmetry_witness :
    (2 ≤ 3 ∧ (0 : Key) ≠ 3 ∧ hash_function std_hash 3 0 0 = hash_function std_hash 3 3 0) ∧
    (∃ slot_idx, slot_idx < 3 ∧
      (run std_hash 3 (new 3) [Op.insert 0, Op.insert 3, Op.remove 0]).slot slot_idx =
        Entry.mk 3 EntryState.OCCUPIED) ∧
    (remove std_hash 3 (run std_hash 3 (new 3) [Op.insert 0, Op.insert 3, Op.remove 0]) 3).1 =
      Except.ok () ∧
    (get std_hash 3 (run std_hash 3 (new 3) [Op.insert 0, Op.insert 3, Op.remove 0]) 3).1 =
      Except.error Error.NotFound :=
  ⟨⟨by decide, by decide, by decide⟩,
    C14_tombstone_asymmetry std_hash 3 0 3 (by decide) (by decide) (by decide)⟩

/-- C15: in a table reached from the fresh capacity-`N` table (`N` a `size_t`),
`remove(key)` succeeds if and only if some slot is `OCCUPIED` with `key`; on
success one slot turns from `OCCUPIED` holding `key` to `DELETED` holding
`key`, every other slot is as before, and `occupied_count` is smaller by 1. -/
theorem C15_remove_finds_key (hasher : Key → Nat) (N : Nat) (hN : N < 2 ^ 64)
    (ops : List Op) (key : Key) :
    ((remove hasher N (run hasher N (new N) ops) key).1 = Except.ok () ↔
      ∃ slot_idx, slot_idx < N ∧
        (run hasher N (new N) ops).slot slot_idx = Entry.mk key EntryState.OCCUPIED) ∧
    ((remove hasher N (run hasher N (new N) ops) key).1 = Except.ok () →
      ∃ slot_idx, slot_idx < N ∧
        (run hasher N (new N) ops).slot slot_idx = Entry.mk key EntryState.OCCUPIED ∧
        (remove hasher N (run hasher N (new N) ops) key).2.slot slot_idx =
          Entry.mk key EntryState.DELETED ∧
        (∀ other, other ≠ slot_idx →
          (remove hasher N (run hasher N (new N) ops) key).2.slot other =
            (run hasher N (new N) ops).slot other) ∧
        (remove hasher N (run hasher N (new N) ops) key).2.entries.length = N ∧
        (remove hasher N (run hasher N (new N) ops) key).2.occupied_count + 1 =
          (run hasher N (new N) ops).occupied_count) := by
  have hlen := length_new_run hasher N ops
  have heff : (remove hasher N (run hasher N (new N) ops) key).1 = Except.ok () →
      ∃ slot_idx, slot_idx < N ∧
        (run hasher N (new N) ops).slot slot_idx = Entry.mk key EntryState.OCCUPIED ∧
        (remove hasher N (run hasher N (new N) ops) key).2.slot slot_idx =
          Entry.mk key EntryState.DELETED ∧
        (∀ other, other ≠ slot_idx →
          (remove hasher N (run hasher N (new N) ops) key).2.slot other =
            (run hasher N (new N) ops).slot other) ∧
        (remove hasher N (run hasher N (new N) ops) key).2.entries.length = N ∧
        (remove hasher N (run hasher N (new N) ops) key).2.occupied_count + 1 =
          (run hasher N (new N) ops).occupied_count := by
    intro hok
    obtain ⟨j, hj, _, hs, hk, h1⟩ := remove_ok_effect hasher N _ key hok
    have hlt : hash_function hasher N key j < N := hash_function_lt hasher (by omega) key j
    have hlt' : hash_function hasher N key j < (run hasher N (new N) ops).entries.length := by
      rw [hlen]; exact hlt
    refine ⟨_, hlt, entry_eq _ key _ hs hk, ?_, ?_, ?_, ?_⟩
    · rw [h1, slot_set_self _ _ _ _ hlt', hk]
    · intro other hne
      rw [h1]
      exact slot_set_other _ _ _ _ _ hne
    · rw [length_remove]; exact hlen
    · have hc := counted_run hasher N hN ops
      have hle := occupied_slots_le (run hasher N (new N) ops)
      have hdec := occupied_slots_set_deleted (run hasher N (new N) ops).entries
        (run hasher N (new N) ops).occupied_count 0 _
        ((run hasher N (new N) ops).slot (hash_function hasher N key j)).key hlt' hs
      have h3 : occupied_slots (OpenAddressingTable.mk
          (run hasher N (new N) ops).occupied_count (run hasher N (new N) ops).entries) =
          (run hasher N (new N) ops).occupied_slots := rfl
      rw [h3] at hdec
      rw [h1]
      show ((run hasher N (new N) ops).occupied_count + SIZE_T_MOD - 1) % SIZE_T_MOD + 1 = _
      simp only [SIZE_T_MOD]
      omega
  refine ⟨⟨fun hok => ?_, fun hex => ?_⟩, heff⟩
  · obtain ⟨slot_idx, h1, h2, _⟩ := heff hok
    exact ⟨slot_idx, h1, h2⟩
  · obtain ⟨slot_idx, h1, h2⟩ := hex
    obtain ⟨j, hj, hp, hne⟩ := noEmptyBefore_run hasher N ops slot_idx h1 (by rw [h2])
    rw [h2] at hp hne
    apply remove_ok_of_no_empty hasher N _ key j hj hne
    · rw [hp, h2]
    · rw [hp, h2]

/-- Witness of C15 at capacity 3: after `insert 0, insert 3, insert 6,
remove 3`, key 6 sits behind a tombstone and `remove 6` succeeds, while key 3
is held by no `OCCUPIED` slot and `remove 3` fails. -/
theorem C15_remove_finds_key_witness :
    3 < 2 ^ 64 ∧
    (remove std_hash 3
      (run std_hash 3 (new 3) [Op.insert 0, Op.insert 3, Op.insert 6, Op.remove 3]) 6).1 =
      Except.ok () ∧
    (remove std_hash 3
      (run std_hash 3 (new 3) [Op.insert 0, Op.insert 3, Op.insert 6, Op.remove 3]) 3).1 =
      Except.error Error.NotFound ∧
    ∃ slot_idx, slot_idx < 3 ∧
      (run std_hash 3 (new 3)
        [Op.insert 0, Op.insert 3, Op.insert 6, Op.remove 3]).slot slot_idx =
        Entry.mk 6 EntryState.OCCUPIED :=
  have h := C15_remove_finds_key std_hash 3 (by decide)
    [Op.insert 0, Op.insert 3, Op.insert 6, Op.remove 3] 6
  ⟨by decide, by decide, by decide, h.1.mp (by decide)⟩

/-- C16: in a table reached from the fresh capacity-`N` table (`N` a `size_t`),
a successful `insert(key)` changes exactly one slot: the first slot of the
probe sequence of `key` that is `EMPTY` or `DELETED`, every earlier probe
meeting an `OCCUPIED` slot with another key; afterwards that slot is `OCCUPIED`
holding `key` and `occupied_count` is larger by 1. -/
theorem C16_insert_effect (hasher : Key → Nat) (N : Nat) (hN : N < 2 ^ 64) (ops : List Op)
    (key : Key)
    (hok : (insert hasher N (run hasher N (new N) ops) key).1 = Except.ok ()) :
    ∃ j, j < N ∧
      (∀ l, l < j →
        ((run hasher N (new N) ops).slot (hash_function hasher N key l)).state =
          EntryState.OCCUPIED ∧
        ((run hasher N (new N) ops).slot (hash_function hasher N key l)).key ≠ key) ∧
      (((run hasher N (new N) ops).slot (hash_function hasher N key j)).state =
          EntryState.EMPTY ∨
        ((run hasher N (new N) ops).slot (hash_function hasher N key j)).state =
          EntryState.DELETED) ∧
      (insert hasher N (run hasher N (new N) ops) key).2.slot (hash_function hasher N key j) =
        Entry.mk key EntryState.OCCUPIED ∧
      (∀ slot_idx, slot_idx < N →
        ((insert hasher N (run hasher N (new N) ops) key).2.slot slot_idx ≠
            (run hasher N (new N) ops).slot slot_idx ↔
          slot_idx = hash_function hasher N key j)) ∧
      (insert hasher N (run hasher N (new N) ops) key).2.entries.length = N ∧
      (insert hasher N (run hasher N (new N) ops) key).2.occupied_count =
        (run hasher N (new N) ops).occupied_count + 1 := by
  have hlen := length_new_run hasher N ops
  obtain ⟨hfull, j, hj, hp, hs, h1⟩ := insert_ok_effect hasher N _ key hok
  have hlt : hash_function hasher N key j < (run hasher N (new N) ops).entries.length := by
    rw [hlen]; exact hash_function_lt hasher (by omega) key j
  have hnew : (insert hasher N (run hasher N (new N) ops) key).2.slot
      (hash_function hasher N key j) = Entry.mk key EntryState.OCCUPIED := by
    rw [h1]; exact slot_set_self _ _ _ _ hlt
  refine ⟨j, hj, fun l hl => hp l (Nat.zero_le _) hl, ?_, hnew, ?_, ?_, ?_⟩
  · rcases state_cases
      ((run hasher N (new N) ops).slot (hash_function hasher N key j)).state with h | h | h
    · left; exact h
    · exact absurd h hs
    · right; exact h
  · intro slot_idx _
    constructor
    · intro hne
      by_contra hidx
      apply hne
      rw [h1]
      exact slot_set_other _ _ _ _ _ hidx
    · intro hidx heq
      rw [hidx, hnew] at heq
      rw [← heq] at hs
      exact hs rfl
  · rw [length_insert]; exact hlen
  · have hc := counted_run hasher N hN ops
    have hle := occupied_slots_le (run hasher N (new N) ops)
    rw [h1]
    show ((run hasher N (new N) ops).occupied_count + 1) % SIZE_T_MOD = _
    apply Nat.mod_eq_of_lt
    simp only [SIZE_T_MOD]
    omega

/-- Witness of C16 at capacity 3: after `insert 0, insert 3, remove 0`, the call
`insert 6` succeeds and reuses the tombstone in slot 0. -/
theorem C16_insert_effect_witness :
    (3 < 2 ^ 64 ∧
      (insert std_hash 3
        (run std_hash 3 (new 3) [Op.insert 0, Op.insert 3, Op.remove 0]) 6).1 = Except.ok ()) ∧
    ∃ j, j < 3 ∧
      (∀ l, l < j →
        ((run std_hash 3 (new 3) [Op.insert 0, Op.insert 3, Op.remove 0]).slot
          (hash_function std_hash 3 6 l)).state = EntryState.OCCUPIED ∧
        ((run std_hash 3 (new 3) [Op.insert 0, Op.insert 3, Op.remove 0]).slot
          (hash_function std_hash 3 6 l)).key ≠ 6) ∧
      (((run std_hash 3 (new 3) [Op.insert 0, Op.insert 3, Op.remove 0]).slot
          (hash_function std_hash 3 6 j)).state = EntryState.EMPTY ∨
        ((run std_hash 3 (new 3) [Op.insert 0, Op.insert 3, Op.remove 0]).slot
          (hash_function std_hash 3 6 j)).state = EntryState.DELETED) ∧
      (insert std_hash 3
        (run std_hash 3 (new 3) [Op.insert 0, Op.insert 3, Op.remove 0]) 6).2.slot
          (hash_function std_hash 3 6 j) = Entry.mk 6 EntryState.OCCUPIED ∧
      (∀ slot_idx, slot_idx < 3 →
        ((insert std_hash 3
            (run std_hash 3 (new 3) [Op.insert 0, Op.insert 3, Op.remove 0]) 6).2.slot
              slot_idx ≠
            (run std_hash 3 (new 3) [Op.insert 0, Op.insert 3, Op.remove 0]).slot slot_idx ↔
          slot_idx = hash_function std_hash 3 6 j)) ∧
      (insert std_hash 3
        (run std_hash 3 (new 3) [Op.insert 0, Op.insert 3, Op.remove 0]) 6).2.entries.length =
        3 ∧
      (insert std_hash 3
        (run std_hash 3 (new 3) [Op.insert 0, Op.insert 3, Op.remove 0]) 6).2.occupied_count =
        (run std_hash 3 (new 3) [Op.insert 0, Op.insert 3, Op.remove 0]).occupied_count + 1 :=
  ⟨⟨by decide, by decide⟩,
    C16_insert_effect std_hash 3 (by decide) [Op.insert 0, Op.insert 3, Op.remove 0] 6
      (by decide)⟩

/-- C20 fails at capacity 3 with the identity hash: after `insert 0, insert 1`
`occupied_count` is 2, yet `insert (-1)` probes slots `0, 0, 1`, exhausts its
three probes and throws "table is full" from the branch after the scan. -/
theorem C20_table_full_counterexample :
    (run std_hash 3 (new 3) [Op.insert 0, Op.insert 1]).occupied_count = 2 ∧
    insert_loop std_hash 3 (run std_hash 3 (new 3) [Op.insert 0, Op.insert 1]) (-1) 3 0 =
      (Except.error Error.TableFull, run std_hash 3 (new 3) [Op.insert 0, Op.insert 1]) ∧
    (insert std_hash 3 (run std_hash 3 (new 3) [Op.insert 0, Op.insert 1]) (-1)).1 =
      Except.error Error.TableFull := by
  decide

/-- C20, amended: in a table reached from the fresh capacity-`N` table (`N` a
`size_t`), tombstones included, for a key whose probe sum does not wrap (`N`
divides `2 ^ 64`, or `hasher(key) + N ≤ 2 ^ 64`), `insert(key)` fails with
`TableFull` if and only if `occupied_count = N` before the call; when
`occupied_count < N` the scan ends in success or in `DuplicateKey`. -/
theorem C20_table_full_iff (hasher : Key → Nat) (N : Nat) (hN : N < 2 ^ 64) (ops : List Op)
    (key : Key) (hw : NoWrap hasher N key) :
    ((insert hasher N (run hasher N (new N) ops) key).1 = Except.error Error.TableFull ↔
      (run hasher N (new N) ops).occupied_count = N) ∧
    ((run hasher N (new N) ops).occupied_count < N →
      (insert_loop hasher N (run hasher N (new N) ops) key N 0).1 = Except.ok () ∨
      (insert_loop hasher N (run hasher N (new N) ops) key N 0).1 =
        Except.error Error.DuplicateKey) := by
  have hscan : (run hasher N (new N) ops).occupied_count ≠ N →
      (insert_loop hasher N (run hasher N (new N) ops) key N 0).1 = Except.ok () ∨
      (insert_loop hasher N (run hasher N (new N) ops) key N 0).1 =
        Except.error Error.DuplicateKey := by
    intro hfull
    rcases insert_loop_spec hasher N (run hasher N (new N) ops) key N 0 with
      ⟨_, hp⟩ | ⟨h1, _⟩ | ⟨j, _, _, _, _, h1⟩
    · exfalso
      apply hfull
      rw [counted_run hasher N hN ops]
      rw [Nat.zero_add] at hp
      exact all_occupied_of_passes hasher N _ key hw (length_new_run hasher N ops) hp
    · right; rw [h1]
    · left; rw [h1]
  refine ⟨⟨fun hfail => ?_, fun hfull => ?_⟩, fun hlt => hscan (by omega)⟩
  · by_contra hfull
    rw [insert_of_not_full hasher N _ key hfull] at hfail
    rcases hscan hfull with h | h
    · rw [h] at hfail; simp at hfail
    · rw [h] at hfail; simp at hfail
  · rw [insert_of_full hasher N _ key hfull]

/-- Witness of C20 at capacity 4 for key `-1`, whose probe sum wraps while 4
divides `2 ^ 64`: after `insert 3, insert 7, remove 3, insert 0` the table
holds two keys and a tombstone, and `insert (-1)` succeeds. -/
theorem C20_table_full_iff_witness :
    (4 < 2 ^ 64 ∧ NoWrap std_hash 4 (-1)) ∧
    (run std_hash 4 (new 4)
      [Op.insert 3, Op.insert 7, Op.remove 3, Op.insert 0]).occupied_count < 4 ∧
    (insert_loop std_hash 4
      (run std_hash 4 (new 4) [Op.insert 3, Op.insert 7, Op.remove 3, Op.insert 0])
        (-1) 4 0).1 = Except.ok () ∧
    ((insert std_hash 4
        (run std_hash 4 (new 4) [Op.insert 3, Op.insert 7, Op.remove 3, Op.insert 0])
          (-1)).1 = Except.error Error.TableFull ↔
      (run std_hash 4 (new 4)
        [Op.insert 3, Op.insert 7, Op.remove 3, Op.insert 0]).occupied_count = 4) :=
  ⟨⟨by decide, Or.inl (by decide)⟩, by decide, by decide,
    (C20_table_full_iff std_hash 4 (by decide)
      [Op.insert 3, Op.insert 7, Op.remove 3, Op.insert 0] (-1) (Or.inl (by decide))).1⟩

end OpenAddressingClaims2

end HashExperiments

/-! ## Invariants of the hybrid storage -/

namespace HashExperiments

namespace TinyStorage

theorem fast_set_out_of_range (s : TinyStorage) (o : OpenAddressingTable) (F b b' : Nat)
    (e : Entry) (hb : s.fast_table.length ≤ b) :
    fast { fast_table := s.fast_table.set b e, overflow_data := o, fast_table_size := F } b' =
      s.fast b' := by
  show (s.fast_table.set b e).getD b' Entry.default = s.fast_table.getD b' Entry.default
  have : s.fast_table.set b e = s.fast_table := by
    apply List.ext_getElem
    · simp
    · intro n h1 h2
      rw [List.getElem_set]
      split
      · omega
      · rfl
  rw [this]

/-- Slot by slot of the fast array, an `insert` call changes no state or turns
`EMPTY` or `DELETED` into `OCCUPIED`. -/
theorem fast_insert_transition (hasher : Key → Nat) (N : Nat) (s : TinyStorage) (key : Key)
    (b : Nat) : InsertTransition (s.fast b).state ((insert hasher N s key).2.fast b).state := by
  by_cases hs : (s.fast (hash_function hasher s key)).state = EntryState.OCCUPIED
  · rw [insert_of_fast_occupied hasher N s key hs]
    left; rfl
  · rw [insert_of_fast_free hasher N s key hs]
    by_cases heq : b = hash_function hasher s key
    · by_cases hlt : hash_function hasher s key < s.fast_table.length
      · rw [heq, fast_set_self s _ _ _ _ hlt]
        rcases OpenAddressingTable.state_cases (s.fast (hash_function hasher s key)).state with
          h2 | h2 | h2
        · right; left; exact ⟨h2, rfl⟩
        · exact absurd h2 hs
        · right; right; exact ⟨h2, rfl⟩
      · left
        rw [fast_set_out_of_range s _ _ _ _ _ (by omega)]
    · left
      rw [fast_set_other s _ _ _ _ _ heq]

/-- Slot by slot of the fast array, a `remove` call changes no state or turns
`OCCUPIED` into `DELETED`. -/
theorem fast_remove_transition (hasher : Key → Nat) (N : Nat) (s : TinyStorage) (key : Key)
    (b : Nat) : RemoveTransition (s.fast b).state ((remove hasher N s key).2.fast b).state := by
  by_cases hs : (s.fast (hash_function hasher s key)).state = EntryState.OCCUPIED ∧
      (s.fast (hash_function hasher s key)).key = key
  · rw [remove_of_fast_hit hasher N s key hs]
    by_cases heq : b = hash_function hasher s key
    · by_cases hlt : hash_function hasher s key < s.fast_table.length
      · rw [heq, fast_set_self s _ _ _ _ hlt]
        right; exact ⟨hs.1, rfl⟩
      · left
        rw [fast_set_out_of_range s _ _ _ _ _ (by omega)]
    · left
      rw [fast_set_other s _ _ _ _ _ heq]
  · rw [remove_of_fast_miss hasher N s key hs]
    left; rfl

theorem tiny_run_append (hasher : Key → Nat) (N : Nat) (s : TinyStorage) (ops : List Op)
    (op : Op) : run hasher N s (ops ++ [op]) = step hasher N (run hasher N s ops) op := by
  simp [run, List.foldl_append]

/-- One call keeps the shape of the storage, keeps every `OCCUPIED` fast slot
the home bucket of its key, and keeps every key stored in the overflow table
within the reach of `remove`. -/
theorem tiny_invariant_step (hasher : Key → Nat) (N : Nat) (s : TinyStorage) (op : Op)
    (hwf : WellFormed N s) (hhome : Homed hasher s)
    (hov : OpenAddressingTable.NoEmptyBefore hasher N s.overflow_data) :
    WellFormed N (step hasher N s op) ∧ Homed hasher (step hasher N s op) ∧
      OpenAddressingTable.NoEmptyBefore hasher N (step hasher N s op).overflow_data := by
  obtain ⟨h1, h2, h3⟩ := hwf
  cases op with
  | get key =>
    show WellFormed N (get hasher N s key).2 ∧ Homed hasher (get hasher N s key).2 ∧
      OpenAddressingTable.NoEmptyBefore hasher N (get hasher N s key).2.overflow_data
    rw [get_state]
    exact ⟨⟨h1, h2, h3⟩, hhome, hov⟩
  | insert key =>
    show WellFormed N (insert hasher N s key).2 ∧ Homed hasher (insert hasher N s key).2 ∧
      OpenAddressingTable.NoEmptyBefore hasher N (insert hasher N s key).2.overflow_data
    refine ⟨wellFormed_insert hasher N s key ⟨h1, h2, h3⟩, ?_, ?_⟩
    · by_cases hs : (s.fast (hash_function hasher s key)).state = EntryState.OCCUPIED
      · rw [insert_of_fast_occupied hasher N s key hs]
        exact hhome
      · rw [insert_of_fast_free hasher N s key hs]
        intro b hb hocc
        by_cases heq : b = hash_function hasher s key
        · have hlt : hash_function hasher s key < s.fast_table.length := by
            rw [h1]; exact bucket_lt hasher s key h2
          rw [heq, fast_set_self s _ _ _ _ hlt]
          rfl
        · rw [fast_set_other s _ _ _ _ _ heq] at hocc ⊢
          exact hhome b hb hocc
    · by_cases hs : (s.fast (hash_function hasher s key)).state = EntryState.OCCUPIED
      · rw [insert_of_fast_occupied hasher N s key hs]
        exact OpenAddressingTable.noEmptyBefore_step hasher N _ (Op.insert key) h3 hov
      · rw [insert_of_fast_free hasher N s key hs]
        exact hov
  | remove key =>
    show WellFormed N (remove hasher N s key).2 ∧ Homed hasher (remove hasher N s key).2 ∧
      OpenAddressingTable.NoEmptyBefore hasher N (remove hasher N s key).2.overflow_data
    by_cases hs : (s.fast (hash_function hasher s key)).state = EntryState.OCCUPIED ∧
        (s.fast (hash_function hasher s key)).key = key
    · rw [remove_of_fast_hit hasher N s key hs]
      refine ⟨⟨by simp [h1], h2, h3⟩, ?_, hov⟩
      intro b hb hocc
      by_cases heq : b = hash_function hasher s key
      · exfalso
        have hlt : hash_function hasher s key < s.fast_table.length := by
          rw [h1]; exact bucket_lt hasher s key h2
        rw [heq, fast_set_self s _ _ _ _ hlt] at hocc
        simp at hocc
      · rw [fast_set_other s _ _ _ _ _ heq] at hocc ⊢
        exact hhome b hb hocc
    · rw [remove_of_fast_miss hasher N s key hs]
      refine ⟨⟨h1, h2, ?_⟩, hhome, ?_⟩
      · show (OpenAddressingTable.remove hasher N s.overflow_data key).2.entries.length = N
        rw [OpenAddressingTable.length_remove, h3]
      · exact OpenAddressingTable.noEmptyBefore_step hasher N _ (Op.remove key) h3 hov

theorem homed_new (hasher : Key → Nat) (N : Nat) : Homed hasher (new N) := by
  intro b _ hocc
  rw [fast_new] at hocc
  simp [Entry.default] at hocc

theorem tiny_invariant_run (hasher : Key → Nat) (N : Nat) (ops : List Op) :
    WellFormed N (run hasher N (new N) ops) ∧ Homed hasher (run hasher N (new N) ops) ∧
      OpenAddressingTable.NoEmptyBefore hasher N (run hasher N (new N) ops).overflow_data := by
  induction ops using List.reverseRecOn with
  | nil =>
    exact ⟨wellFormed_new N, homed_new hasher N,
      OpenAddressingTable.noEmptyBefore_new hasher N⟩
  | append_singleton ops op ih =>
    rw [tiny_run_append]
    exact tiny_invariant_step hasher N _ op ih.1 ih.2.1 ih.2.2

end TinyStorage

end HashExperiments

/-! ## Further claims on the hybrid storage -/

namespace HashExperiments

section TinyStorageClaims2

set_option maxRecDepth 100000

/-- C11: in a storage reached from the fresh one, when the home bucket of
`key` in the fast array is `OCCUPIED`, `insert(key)` leaves the fast array as
it was and has the outcome and the effect of `overflow.insert(key)` on the
overflow table; when the call succeeds, `overflow.get(key)` returns `key`. -/
theorem C11_hybrid_delegation (hasher : Key → Nat) (N : Nat) (ops : List Op) (key : Key)
    (hocc : ((TinyStorage.run hasher N (TinyStorage.new N) ops).fast
      (TinyStorage.hash_function hasher (TinyStorage.run hasher N (TinyStorage.new N) ops)
        key)).state = EntryState.OCCUPIED) :
    (TinyStorage.insert hasher N (TinyStorage.run hasher N (TinyStorage.new N) ops) key).1 =
      ((TinyStorage.run hasher N (TinyStorage.new N) ops).overflow_data.insert
        hasher N key).1 ∧
    (TinyStorage.insert hasher N
      (TinyStorage.run hasher N (TinyStorage.new N) ops) key).2.overflow_data =
      ((TinyStorage.run hasher N (TinyStorage.new N) ops).overflow_data.insert
        hasher N key).2 ∧
    (TinyStorage.insert hasher N
      (TinyStorage.run hasher N (TinyStorage.new N) ops) key).2.fast_table =
      (TinyStorage.run hasher N (TinyStorage.new N) ops).fast_table ∧
    (TinyStorage.insert hasher N
      (TinyStorage.run hasher N (TinyStorage.new N) ops) key).2.fast_table_size =
      (TinyStorage.run hasher N (TinyStorage.new N) ops).fast_table_size ∧
    ((TinyStorage.insert hasher N
        (TinyStorage.run hasher N (TinyStorage.new N) ops) key).1 = Except.ok () →
      ((TinyStorage.insert hasher N
        (TinyStorage.run hasher N (TinyStorage.new N) ops) key).2.overflow_data.get
          hasher N key).1 = Except.ok key) := by
  rw [TinyStorage.insert_of_fast_occupied hasher N _ key hocc]
  refine ⟨rfl, rfl, rfl, rfl, fun hok => ?_⟩
  have hlen := (TinyStorage.tiny_invariant_run hasher N ops).1.2.2
  obtain ⟨j, hj⟩ := OpenAddressingTable.insert_ok_foundAt hasher N _ key hlen hok
  show (OpenAddressingTable.get hasher N _ key).1 = _
  rw [OpenAddressingTable.foundAt_get hasher N _ key j hj]

/-- Witness of C11 at capacity 4: after `insert 1`, the home bucket 1 of key 3
is `OCCUPIED`; `insert 3` goes to the overflow table, where `get 3` finds it. -/
theorem C11_hybrid_delegation_witness :
    ((TinyStorage.run std_hash 4 (TinyStorage.new 4) [Op.insert 1]).fast
      (TinyStorage.hash_function std_hash
        (TinyStorage.run std_hash 4 (TinyStorage.new 4) [Op.insert 1]) 3)).state =
      EntryState.OCCUPIED ∧
    (TinyStorage.insert std_hash 4
      (TinyStorage.run std_hash 4 (TinyStorage.new 4) [Op.insert 1]) 3).1 = Except.ok () ∧
    (TinyStorage.insert std_hash 4
      (TinyStorage.run std_hash 4 (TinyStorage.new 4) [Op.insert 1]) 3).2.fast_table =
      (TinyStorage.run std_hash 4 (TinyStorage.new 4) [Op.insert 1]).fast_table ∧
    ((TinyStorage.insert std_hash 4
      (TinyStorage.run std_hash 4 (TinyStorage.new 4) [Op.insert 1]) 3).2.overflow_data.get
        std_hash 4 3).1 = Except.ok 3 :=
  have hocc : ((TinyStorage.run std_hash 4 (TinyStorage.new 4) [Op.insert 1]).fast
      (TinyStorage.hash_function std_hash
        (TinyStorage.run std_hash 4 (TinyStorage.new 4) [Op.insert 1]) 3)).state =
      EntryState.OCCUPIED := by
    rw [TinyStorage.new_four]; decide
  have hok : (TinyStorage.insert std_hash 4
      (TinyStorage.run std_hash 4 (TinyStorage.new 4) [Op.insert 1]) 3).1 = Except.ok () := by
    rw [TinyStorage.new_four]; decide
  have h := C11_hybrid_delegation std_hash 4 [Op.insert 1] 3 hocc
  ⟨hocc, hok, h.2.2.1, h.2.2.2.2 hok⟩

/-- C17: no `insert`, `get` or `remove` call turns a slot that is `OCCUPIED` or
`DELETED` into an `EMPTY` one, in the slot array of `OpenAddressingTable` and in
the fast array of `TinyStorage`; slot by slot, `insert` changes no state or
turns `EMPTY` or `DELETED` into `OCCUPIED`, `remove` changes no state or turns
`OCCUPIED` into `DELETED`, and `get` changes no state. -/
theorem C17_slot_lifecycle (hasher : Key → Nat) (N : Nat) (t : OpenAddressingTable)
    (s : TinyStorage) (key : Key) (i : Nat) :
    (InsertTransition (t.slot i).state ((t.insert hasher N key).2.slot i).state ∧
      ((t.get hasher N key).2.slot i).state = (t.slot i).state ∧
      RemoveTransition (t.slot i).state ((t.remove hasher N key).2.slot i).state) ∧
    (InsertTransition (s.fast i).state ((s.insert hasher N key).2.fast i).state ∧
      ((s.get hasher N key).2.fast i).state = (s.fast i).state ∧
      RemoveTransition (s.fast i).state ((s.remove hasher N key).2.fast i).state) ∧
    ((t.slot i).state ≠ EntryState.EMPTY →
      ((t.insert hasher N key).2.slot i).state ≠ EntryState.EMPTY ∧
      ((t.get hasher N key).2.slot i).state ≠ EntryState.EMPTY ∧
      ((t.remove hasher N key).2.slot i).state ≠ EntryState.EMPTY) ∧
    ((s.fast i).state ≠ EntryState.EMPTY →
      ((s.insert hasher N key).2.fast i).state ≠ EntryState.EMPTY ∧
      ((s.get hasher N key).2.fast i).state ≠ EntryState.EMPTY ∧
      ((s.remove hasher N key).2.fast i).state ≠ EntryState.EMPTY) := by
  have ins : ∀ a b : EntryState, InsertTransition a b → a ≠ EntryState.EMPTY →
      b ≠ EntryState.EMPTY := by
    intro a b h hne
    rcases h with h | ⟨_, h⟩ | ⟨_, h⟩
    · rw [h]; exact hne
    · rw [h]; simp
    · rw [h]; simp
  have rem : ∀ a b : EntryState, RemoveTransition a b → a ≠ EntryState.EMPTY →
      b ≠ EntryState.EMPTY := by
    intro a b h hne
    rcases h with h | ⟨_, h⟩
    · rw [h]; exact hne
    · rw [h]; simp
  have t1 := OpenAddressingTable.insert_transition hasher N t key i
  have t2 := OpenAddressingTable.remove_transition hasher N t key i
  have s1 := TinyStorage.fast_insert_transition hasher N s key i
  have s2 := TinyStorage.fast_remove_transition hasher N s key i
  have sg : ((s.get hasher N key).2.fast i).state = (s.fast i).state := by
    rw [TinyStorage.get_state]
  refine ⟨⟨t1, rfl, t2⟩, ⟨s1, sg, s2⟩, fun hne => ⟨ins _ _ t1 hne, hne, rem _ _ t2 hne⟩,
    fun hne => ⟨ins _ _ s1 hne, ?_, rem _ _ s2 hne⟩⟩
  rw [sg]; exact hne

/-- Witness of C17 at capacity 2, slot 0, key 0: on the table and the storage
reached by `insert 0, remove 0` slot 0 is `DELETED`; `insert 0` turns it into
`OCCUPIED`, `get 0` and `remove 0` leave it `DELETED`. -/
theorem C17_slot_lifecycle_witness :
    (((OpenAddressingTable.run std_hash 2 (OpenAddressingTable.new 2)
        [Op.insert 0, Op.remove 0]).slot 0).state = EntryState.DELETED ∧
      (((OpenAddressingTable.run std_hash 2 (OpenAddressingTable.new 2)
        [Op.insert 0, Op.remove 0]).insert std_hash 2 0).2.slot 0).state =
        EntryState.OCCUPIED) ∧
    (((OpenAddressingTable.run std_hash 2 (OpenAddressingTable.new 2)
        [Op.insert 0, Op.remove 0]).slot 0).state ≠ EntryState.EMPTY ∧
      (((OpenAddressingTable.run std_hash 2 (OpenAddressingTable.new 2)
        [Op.insert 0, Op.remove 0]).insert std_hash 2 0).2.slot 0).state ≠
        EntryState.EMPTY ∧
      (((OpenAddressingTable.run std_hash 2 (OpenAddressingTable.new 2)
        [Op.insert 0, Op.remove 0]).get std_hash 2 0).2.slot 0).state ≠
        EntryState.EMPTY ∧
      (((OpenAddressingTable.run std_hash 2 (OpenAddressingTable.new 2)
        [Op.insert 0, Op.remove 0]).remove std_hash 2 0).2.slot 0).state ≠
        EntryState.EMPTY) :=
  have hne : ((OpenAddressingTable.run std_hash 2 (OpenAddressingTable.new 2)
      [Op.insert 0, Op.remove 0]).slot 0).state ≠ EntryState.EMPTY := by decide
  ⟨⟨by decide, by decide⟩, hne,
    (C17_slot_lifecycle std_hash 2
      (OpenAddressingTable.run std_hash 2 (OpenAddressingTable.new 2)
        [Op.insert 0, Op.remove 0])
      (TinyStorage.new 2) 0 0).2.2.1 hne⟩

/-- C18: for every bucket width `W ≥ 1` in place of `SUB_SIZE`, `get`,
`insert` and `remove` of `TinyStorage` return the same result and the same
final state as the direct-mapped versions that inspect the single slot
`fast_table[hash(key) mod F]` once; so do the methods themselves, of width
`SUB_SIZE`, and the width-1 loops. -/
theorem C18_bucket_width_collapses (W : Nat) (hW : 1 ≤ W) (hasher : Key → Nat) (N : Nat)
    (s : TinyStorage) (key : Key) :
    (TinyStorage.get_width W hasher N s key = TinyStorage.get_direct hasher N s key ∧
      TinyStorage.insert_width W hasher N s key = TinyStorage.insert_direct hasher N s key ∧
      TinyStorage.remove_width W hasher N s key = TinyStorage.remove_direct hasher N s key) ∧
    (TinyStorage.get_width W hasher N s key = TinyStorage.get_width 1 hasher N s key ∧
      TinyStorage.insert_width W hasher N s key = TinyStorage.insert_width 1 hasher N s key ∧
      TinyStorage.remove_width W hasher N s key = TinyStorage.remove_width 1 hasher N s key) ∧
    (TinyStorage.get hasher N s key = TinyStorage.get_direct hasher N s key ∧
      TinyStorage.insert hasher N s key = TinyStorage.insert_direct hasher N s key ∧
      TinyStorage.remove hasher N s key = TinyStorage.remove_direct hasher N s key) := by
  have hg : ∀ V, 1 ≤ V →
      TinyStorage.get_width V hasher N s key = TinyStorage.get_direct hasher N s key := by
    intro V hV
    simp only [TinyStorage.get_width, TinyStorage.get_direct]
    rw [TinyStorage.get_loop_eq s key _ V 0 (by omega)]
    by_cases hk : (s.fast (TinyStorage.hash_function hasher s key)).key = key
    · simp [hk]
    · simp [hk]
  have hi : ∀ V, 1 ≤ V →
      TinyStorage.insert_width V hasher N s key = TinyStorage.insert_direct hasher N s key := by
    intro V hV
    simp only [TinyStorage.insert_width, TinyStorage.insert_direct]
    rw [TinyStorage.insert_loop_eq s key _ V 0 (by omega)]
    by_cases hk : (s.fast (TinyStorage.hash_function hasher s key)).state = EntryState.OCCUPIED
    · simp [hk]
    · simp [hk]
  have hr : ∀ V, 1 ≤ V →
      TinyStorage.remove_width V hasher N s key = TinyStorage.remove_direct hasher N s key := by
    intro V hV
    simp only [TinyStorage.remove_width, TinyStorage.remove_direct]
    rw [TinyStorage.remove_loop_eq s key _ V 0 (by omega)]
    by_cases hk : (s.fast (TinyStorage.hash_function hasher s key)).state =
        EntryState.OCCUPIED ∧ (s.fast (TinyStorage.hash_function hasher s key)).key = key
    · simp [hk]
    · simp [hk]
  refine ⟨⟨hg W hW, hi W hW, hr W hW⟩, ⟨?_, ?_, ?_⟩, ⟨hg 2 (by decide), hi 2 (by decide),
    hr 2 (by decide)⟩⟩
  · rw [hg W hW, hg 1 (le_refl _)]
  · rw [hi W hW, hi 1 (le_refl _)]
  · rw [hr W hW, hr 1 (le_refl _)]

/-- Witness of C18 for width 5 at capacity 4, key 3, on the storage reached by
`insert 1, insert 5`: the three calls agree with the direct-mapped versions. -/
theorem C18_bucket_width_collapses_witness :
    1 ≤ 5 ∧
    TinyStorage.get_width 5 std_hash 4
        (TinyStorage.run std_hash 4 (TinyStorage.new 4) [Op.insert 1, Op.insert 5]) 3 =
      TinyStorage.get_direct std_hash 4
        (TinyStorage.run std_hash 4 (TinyStorage.new 4) [Op.insert 1, Op.insert 5]) 3 ∧
    TinyStorage.insert_width 5 std_hash 4
        (TinyStorage.run std_hash 4 (TinyStorage.new 4) [Op.insert 1, Op.insert 5]) 3 =
      TinyStorage.insert_direct std_hash 4
        (TinyStorage.run std_hash 4 (TinyStorage.new 4) [Op.insert 1, Op.insert 5]) 3 ∧
    TinyStorage.remove_width 5 std_hash 4
        (TinyStorage.run std_hash 4 (TinyStorage.new 4) [Op.insert 1, Op.insert 5]) 3 =
      TinyStorage.remove_direct std_hash 4
        (TinyStorage.run std_hash 4 (TinyStorage.new 4) [Op.insert 1, Op.insert 5]) 3 :=
  ⟨by decide,
    (C18_bucket_width_collapses 5 (by decide) std_hash 4
      (TinyStorage.run std_hash 4 (TinyStorage.new 4) [Op.insert 1, Op.insert 5]) 3).1⟩

/-- C19: in a storage reached from the fresh one, `remove(key)` succeeds if
and only if an `OCCUPIED` slot of the fast array or of the overflow table
holds `key`; when the home bucket of `key` is `OCCUPIED` with `key`, that slot
becomes `DELETED` and the overflow table is unchanged; otherwise the call has
the outcome and the effect of `overflow.remove(key)`. -/
theorem C19_tiny_remove_finds_key (hasher : Key → Nat) (N : Nat) (ops : List Op) (key : Key) :
    ((TinyStorage.remove hasher N (TinyStorage.run hasher N (TinyStorage.new N) ops) key).1 =
        Except.ok () ↔
      (∃ b, b < (TinyStorage.run hasher N (TinyStorage.new N) ops).fast_table_size ∧
        (TinyStorage.run hasher N (TinyStorage.new N) ops).fast b =
          Entry.mk key EntryState.OCCUPIED) ∨
      (∃ slot_idx, slot_idx < N ∧
        (TinyStorage.run hasher N (TinyStorage.new N) ops).overflow_data.slot slot_idx =
          Entry.mk key EntryState.OCCUPIED)) ∧
    ((TinyStorage.run hasher N (TinyStorage.new N) ops).fast
        (TinyStorage.hash_function hasher
          (TinyStorage.run hasher N (TinyStorage.new N) ops) key) =
        Entry.mk key EntryState.OCCUPIED →
      (TinyStorage.remove hasher N (TinyStorage.run hasher N (TinyStorage.new N) ops) key).1 =
        Except.ok () ∧
      (TinyStorage.remove hasher N
        (TinyStorage.run hasher N (TinyStorage.new N) ops) key).2.fast
          (TinyStorage.hash_function hasher
            (TinyStorage.run hasher N (TinyStorage.new N) ops) key) =
        Entry.mk key EntryState.DELETED ∧
      (∀ b, b ≠ TinyStorage.hash_function hasher
          (TinyStorage.run hasher N (TinyStorage.new N) ops) key →
        (TinyStorage.remove hasher N
          (TinyStorage.run hasher N (TinyStorage.new N) ops) key).2.fast b =
          (TinyStorage.run hasher N (TinyStorage.new N) ops).fast b) ∧
      (TinyStorage.remove hasher N
        (TinyStorage.run hasher N (TinyStorage.new N) ops) key).2.overflow_data =
        (TinyStorage.run hasher N (TinyStorage.new N) ops).overflow_data) ∧
    ((TinyStorage.run hasher N (TinyStorage.new N) ops).fast
        (TinyStorage.hash_function hasher
          (TinyStorage.run hasher N (TinyStorage.new N) ops) key) ≠
        Entry.mk key EntryState.OCCUPIED →
      (TinyStorage.remove hasher N (TinyStorage.run hasher N (TinyStorage.new N) ops) key).1 =
        ((TinyStorage.run hasher N (TinyStorage.new N) ops).overflow_data.remove
          hasher N key).1 ∧
      (TinyStorage.remove hasher N
        (TinyStorage.run hasher N (TinyStorage.new N) ops) key).2.overflow_data =
        ((TinyStorage.run hasher N (TinyStorage.new N) ops).overflow_data.remove
          hasher N key).2 ∧
      (TinyStorage.remove hasher N
        (TinyStorage.run hasher N (TinyStorage.new N) ops) key).2.fast_table =
        (TinyStorage.run hasher N (TinyStorage.new N) ops).fast_table) := by
  obtain ⟨⟨h1, h2, h3⟩, hhome, hov⟩ := TinyStorage.tiny_invariant_run hasher N ops
  generalize TinyStorage.run hasher N (TinyStorage.new N) ops = s at *
  have hb0 : TinyStorage.hash_function hasher s key < s.fast_table_size :=
    TinyStorage.bucket_lt hasher s key h2
  have hhit : ∀ hs : (s.fast (TinyStorage.hash_function hasher s key)).state =
      EntryState.OCCUPIED ∧ (s.fast (TinyStorage.hash_function hasher s key)).key = key,
      (TinyStorage.remove hasher N s key).1 = Except.ok () ∧
      (TinyStorage.remove hasher N s key).2.fast (TinyStorage.hash_function hasher s key) =
        Entry.mk key EntryState.DELETED ∧
      (∀ b, b ≠ TinyStorage.hash_function hasher s key →
        (TinyStorage.remove hasher N s key).2.fast b = s.fast b) ∧
      (TinyStorage.remove hasher N s key).2.overflow_data = s.overflow_data := by
    intro hs
    rw [TinyStorage.remove_of_fast_hit hasher N s key hs]
    refine ⟨rfl, ?_, fun b hb => TinyStorage.fast_set_other s _ _ _ _ _ hb, rfl⟩
    rw [TinyStorage.fast_set_self s _ _ _ _ (by rw [h1]; exact hb0), hs.2]
  have hmiss : ∀ hs : ¬ ((s.fast (TinyStorage.hash_function hasher s key)).state =
      EntryState.OCCUPIED ∧ (s.fast (TinyStorage.hash_function hasher s key)).key = key),
      (TinyStorage.remove hasher N s key).1 = (s.overflow_data.remove hasher N key).1 ∧
      (TinyStorage.remove hasher N s key).2.overflow_data =
        (s.overflow_data.remove hasher N key).2 ∧
      (TinyStorage.remove hasher N s key).2.fast_table = s.fast_table := by
    intro hs
    rw [TinyStorage.remove_of_fast_miss hasher N s key hs]
    exact ⟨rfl, rfl, rfl⟩
  refine ⟨⟨fun hok => ?_, fun hex => ?_⟩, fun hslot => ?_, fun hslot => ?_⟩
  · by_cases hs : (s.fast (TinyStorage.hash_function hasher s key)).state =
        EntryState.OCCUPIED ∧ (s.fast (TinyStorage.hash_function hasher s key)).key = key
    · left
      exact ⟨_, hb0, OpenAddressingTable.entry_eq _ key _ hs.1 hs.2⟩
    · right
      rw [(hmiss hs).1] at hok
      obtain ⟨j, hj, _, hst, hk, _⟩ := OpenAddressingTable.remove_ok_effect hasher N _ key hok
      exact ⟨_, OpenAddressingTable.hash_function_lt hasher (by omega) key j,
        OpenAddressingTable.entry_eq _ key _ hst hk⟩
  · by_cases hs : (s.fast (TinyStorage.hash_function hasher s key)).state =
        EntryState.OCCUPIED ∧ (s.fast (TinyStorage.hash_function hasher s key)).key = key
    · exact (hhit hs).1
    · rcases hex with ⟨b, hb, hfast⟩ | ⟨slot_idx, hidx, hslot⟩
      · exfalso
        apply hs
        have := hhome b hb (by rw [hfast])
        rw [hfast] at this
        rw [this, hfast]
        exact ⟨rfl, rfl⟩
      · rw [(hmiss hs).1]
        obtain ⟨j, hj, hp, hne⟩ := hov slot_idx hidx (by rw [hslot])
        rw [hslot] at hp hne
        apply OpenAddressingTable.remove_ok_of_no_empty hasher N _ key j hj hne
        · rw [hp, hslot]
        · rw [hp, hslot]
  · exact hhit (by rw [hslot]; exact ⟨rfl, rfl⟩)
  · apply hmiss
    intro hs
    exact hslot (OpenAddressingTable.entry_eq _ key _ hs.1 hs.2)

/-- Witness of C19 at capacity 4: after `insert 1, insert 3, insert 5,
remove 3`, key 5 sits in the overflow table behind the tombstone of key 3 and
`remove 5` succeeds through `overflow.remove`; key 1 sits in the fast array and
`remove 1` tombstones its home bucket. -/
theorem C19_tiny_remove_finds_key_witness :
    ((TinyStorage.run std_hash 4 (TinyStorage.new 4)
        [Op.insert 1, Op.insert 3, Op.insert 5, Op.remove 3]).fast
        (TinyStorage.hash_function std_hash
          (TinyStorage.run std_hash 4 (TinyStorage.new 4)
            [Op.insert 1, Op.insert 3, Op.insert 5, Op.remove 3]) 5) ≠
        Entry.mk 5 EntryState.OCCUPIED ∧
      ((TinyStorage.run std_hash 4 (TinyStorage.new 4)
        [Op.insert 1, Op.insert 3, Op.insert 5, Op.remove 3]).overflow_data.remove
          std_hash 4 5).1 = Except.ok ()) ∧
    (TinyStorage.remove std_hash 4
      (TinyStorage.run std_hash 4 (TinyStorage.new 4)
        [Op.insert 1, Op.insert 3, Op.insert 5, Op.remove 3]) 5).1 = Except.ok () ∧
    (TinyStorage.run std_hash 4 (TinyStorage.new 4)
        [Op.insert 1, Op.insert 3, Op.insert 5, Op.remove 3]).fast
        (TinyStorage.hash_function std_hash
          (TinyStorage.run std_hash 4 (TinyStorage.new 4)
            [Op.insert 1, Op.insert 3, Op.insert 5, Op.remove 3]) 1) =
        Entry.mk 1 EntryState.OCCUPIED ∧
    (TinyStorage.remove std_hash 4
      (TinyStorage.run std_hash 4 (TinyStorage.new 4)
        [Op.insert 1, Op.insert 3, Op.insert 5, Op.remove 3]) 1).1 = Except.ok () :=
  have hmiss : (TinyStorage.run std_hash 4 (TinyStorage.new 4)
      [Op.insert 1, Op.insert 3, Op.insert 5, Op.remove 3]).fast
      (TinyStorage.hash_function std_hash
        (TinyStorage.run std_hash 4 (TinyStorage.new 4)
          [Op.insert 1, Op.insert 3, Op.insert 5, Op.remove 3]) 5) ≠
      Entry.mk 5 EntryState.OCCUPIED := by
    rw [TinyStorage.new_four]; decide
  have hov : ((TinyStorage.run std_hash 4 (TinyStorage.new 4)
      [Op.insert 1, Op.insert 3, Op.insert 5, Op.remove 3]).overflow_data.remove
        std_hash 4 5).1 = Except.ok () := by
    rw [TinyStorage.new_four]; decide
  have hhit : (TinyStorage.run std_hash 4 (TinyStorage.new 4)
      [Op.insert 1, Op.insert 3, Op.insert 5, Op.remove 3]).fast
      (TinyStorage.hash_function std_hash
        (TinyStorage.run std_hash 4 (TinyStorage.new 4)
          [Op.insert 1, Op.insert 3, Op.insert 5, Op.remove 3]) 1) =
      Entry.mk 1 EntryState.OCCUPIED := by
    rw [TinyStorage.new_four]; decide
  ⟨⟨hmiss, hov⟩,
    ((C19_tiny_remove_finds_key std_hash 4
      [Op.insert 1, Op.insert 3, Op.insert 5, Op.remove 3] 5).2.2 hmiss).1.trans hov,
    hhit,
    ((C19_tiny_remove_finds_key std_hash 4
      [Op.insert 1, Op.insert 3, Op.insert 5, Op.remove 3] 1).2.1 hhit).1⟩

end TinyStorageClaims2

end HashExperiments

/-! ## The size of the fast array -/

namespace HashExperiments

namespace TinyStorage

/-- Up to 30 bits the `int` shift `1 << bits`, converted to `size_t`, is `2 ^ bits`. -/
theorem int_to_size_t_shl_int (bits : Nat) (h : bits ≤ 30) :
    int_to_size_t (shl_int 1 bits) = 2 ^ bits := by
  rw [shl_int_one, Nat.mod_eq_of_lt (by omega)]
  unfold int_to_size_t
  have : 2 ^ bits < 2 ^ 31 := Nat.pow_lt_pow_right (by decide) (by omega)
  rw [if_pos this]

theorem clog_two_le_31 (N : Nat) (hle : N ≤ 2 ^ 31) : Nat.clog 2 N ≤ 31 :=
  (Nat.le_pow_iff_clog_le (by decide)).mp hle

/-- The constructed fast array: its size field and its slots. -/
theorem new_fast_table (N : Nat) :
    (new N).fast_table = List.replicate (new N).fast_table_size Entry.default := rfl

end TinyStorage

section SizingClaims

/-- C12 fails above `2 ^ 31`: for `N = 2 ^ 31 + 1`, `ceil(log2 N)` is 32, the
`int` shift `1 << 31` is `INT_MIN` and `fast_table_size` becomes
`2 ^ 64 - 2 ^ 31`, not `2 ^ 31`. -/
theorem C12_fast_table_size_counterexample :
    Nat.clog 2 (2 ^ 31 + 1) = 32 ∧
    (TinyStorage.new (2 ^ 31 + 1)).fast_table_size = 2 ^ 64 - 2 ^ 31 ∧
    (TinyStorage.new (2 ^ 31 + 1)).fast_table_size ≠ 2 ^ (Nat.clog 2 (2 ^ 31 + 1) - 1) := by
  have hclog : Nat.clog 2 (2 ^ 31 + 1) = 32 := by
    apply Nat.le_antisymm
    · exact (Nat.le_pow_iff_clog_le (by decide)).mp (by norm_num)
    · exact (Nat.pow_lt_iff_lt_clog (by decide)).mp (by norm_num)
  have hsize : (TinyStorage.new (2 ^ 31 + 1)).fast_table_size = 2 ^ 64 - 2 ^ 31 := by
    show TinyStorage.int_to_size_t (TinyStorage.shl_int 1 (Nat.clog 2 (2 ^ 31 + 1) - 1)) = _
    rw [hclog, TinyStorage.shl_int_one]
    simp [TinyStorage.int_to_size_t, SIZE_T_MOD]
  refine ⟨hclog, hsize, ?_⟩
  rw [hsize, hclog]
  norm_num

/-- C12, amended: for every capacity `2 ≤ N ≤ 2 ^ 31` the constructor sets
`fast_table_size = 2 ^ (ceil(log2 N) - 1)`, where `ceil(log2 N) ≥ 1` is the
least `e` with `N ≤ 2 ^ e`, and the fast array has that many slots, all
`EMPTY`. -/
theorem C12_fast_table_size (N : Nat) (h2 : 2 ≤ N) (hle : N ≤ 2 ^ 31) :
    (0 < Nat.clog 2 N ∧ N ≤ 2 ^ Nat.clog 2 N ∧ ∀ e, N ≤ 2 ^ e → Nat.clog 2 N ≤ e) ∧
    (TinyStorage.new N).fast_table_size = 2 ^ (Nat.clog 2 N - 1) ∧
    (TinyStorage.new N).fast_table.length = 2 ^ (Nat.clog 2 N - 1) ∧
    ∀ e, e ∈ (TinyStorage.new N).fast_table → e = Entry.mk 0 EntryState.EMPTY := by
  have hsize : (TinyStorage.new N).fast_table_size = 2 ^ (Nat.clog 2 N - 1) := by
    show TinyStorage.int_to_size_t (TinyStorage.shl_int 1 (Nat.clog 2 N - 1)) = _
    have := TinyStorage.clog_two_le_31 N hle
    exact TinyStorage.int_to_size_t_shl_int _ (by omega)
  refine ⟨⟨Nat.clog_pos (by decide) h2, Nat.le_pow_clog (by decide) N,
    fun e he => (Nat.le_pow_iff_clog_le (by decide)).mp he⟩, hsize, ?_, ?_⟩
  · rw [TinyStorage.new_fast_table, List.length_replicate, hsize]
  · intro e he
    rw [TinyStorage.new_fast_table] at he
    exact List.eq_of_mem_replicate he

/-- Witness of C12 at `N = 32768`: the fast array has 16384 slots, all `EMPTY`. -/
theorem C12_fast_table_size_witness :
    (2 ≤ 32768 ∧ 32768 ≤ 2 ^ 31) ∧
    (TinyStorage.new 32768).fast_table_size = 16384 ∧
    (TinyStorage.new 32768).fast_table.length = 16384 ∧
    ∀ e, e ∈ (TinyStorage.new 32768).fast_table → e = Entry.mk 0 EntryState.EMPTY :=
  have hclog : Nat.clog 2 32768 = 15 := Nat.clog_pow 2 15 (by decide)
  have h := C12_fast_table_size 32768 (by decide) (by decide)
  ⟨⟨by decide, by decide⟩,
    h.2.1.trans (by rw [hclog]; rfl),
    h.2.2.1.trans (by rw [hclog]; rfl),
    h.2.2.2⟩

end SizingClaims

end HashExperiments
